import Mathlib

/-!
Verification of the SPLATT TTMc and CCD kernels (src/ttm.c and
src/completion/ccd.c) against their natural-language specification.

Values (`val_t`, C doubles) are modelled as exact rationals; machine indices
(`idx_t`) as naturals.  Output buffers (`tenout`, the CCD numerator and
denominator scratch arrays) are modelled as total functions `ℕ → ℚ` that the
kernels update pointwise, mirroring the in-place stores of the C code.
-/

namespace Splatt

abbrev Val := ℚ

/-- A dense row-major factor matrix (`matrix_t`): `J` columns, entry lookup
by (row, column).  The C stores `vals[i*J + j]`; `splatt_ttmc` builds this
view from the flat caller array. -/
structure Mat where
  J : ℕ
  vals : ℕ → ℕ → Val

/-- Row `i` of a factor matrix as a list of its `J` entries. -/
def Mat.row (A : Mat) (i : ℕ) : List Val :=
  (List.range A.J).map (A.vals i)

/-- Coordinate-form sparse tensor (`sptensor_t`): per-mode index columns
`ind[m][0..nnz)` and a value column. -/
structure Sptensor where
  nmodes : ℕ
  dims : List ℕ
  nnz : ℕ
  ind : List (List ℕ)
  vals : List Val

/-- Per-tile CSF arrays (`csf_sparsity`): fiber counts, parent-to-child
pointer arrays and child id arrays per level, plus leaf values.  A `none`
id array denotes the identity map (NULL `fids` in the C). -/
structure CsfSparsity where
  nfibs : List ℕ
  fptr : List (List ℕ)
  fids : List (Option (List ℕ))
  vals : List Val

def emptySparsity : CsfSparsity := ⟨[], [], [], []⟩

/-- `fids[L] == NULL ? i : fids[L][i]` — the NULL-as-identity id lookup. -/
def fidsAt (o : Option (List ℕ)) (i : ℕ) : ℕ :=
  match o with
  | none => i
  | some l => l.getD i 0

inductive TileType
  | notile
  | densetile
  | synctile
deriving DecidableEq

/-- A CSF tensor (`splatt_csf`). -/
structure SplattCsf where
  nmodes : ℕ
  dims : List ℕ
  dim_perm : List ℕ
  which_tile : TileType
  ntiles : ℕ
  tile_dims : List ℕ
  pt : List CsfSparsity

inductive CsfAlloc
  | onemode
  | twomode
  | allmode
deriving DecidableEq

/-- `csf_mode_depth`.  Modelled from the spec: csf.c is not part of the
sources; the spec defines the depth of mode `m` as the position of `m` in
`dim_perm` (§3 invariant 1, glossary). -/
def csf_mode_depth (mode : ℕ) (perm : List ℕ) (nmodes : ℕ) : ℕ :=
  (((List.range nmodes).filter (fun d => perm.getD d 0 = mode))).headD 0

/-- `p_ttmc_outncols`: the product of `nfactors[m]` over all modes `m` except
`mode` (the C accumulates it in a loop over `m < nmodes`). -/
def p_ttmc_outncols (nfactors : List ℕ) (nmodes : ℕ) (mode : ℕ) : ℕ :=
  (((List.range nmodes).filter (fun m => m ≠ mode)).map
    (fun m => nfactors.getD m 0)).prod

/-- `p_twovec_outer_prod`: row-major outer product `out[i*nB + j] =
rowA[i] * rowB[j]`, flattened. -/
def p_twovec_outer_prod (rowA rowB : List Val) : List Val :=
  rowA.flatMap (fun x => rowB.map (fun y => x * y))

/-- Pointwise accumulation of the list `xs` into the buffer `t` starting at
offset `base` — the `+=` stores of the kernels' inner loops. -/
def addAt (t : ℕ → Val) (base : ℕ) (xs : List Val) : ℕ → Val :=
  fun j => if base ≤ j ∧ j - base < xs.length then t j + xs.getD (j - base) 0 else t j

/-- The per-fiber nonzero reduction shared by the root/internal TTMc
kernels: `accum_nnz[r] = Σ_{jj ∈ [fptr[f], fptr[f+1])} vals[jj] *
B[inds[jj], r]`.  (The C seeds the buffer with the fiber's first nonzero
and accumulates the rest; starting from zeros gives the same sums.) -/
def fiberAccum (pt : CsfSparsity) (B : Mat) (f : ℕ) : List Val :=
  let fptr := pt.fptr.getD 1 []
  (List.range' (fptr.getD f 0) (fptr.getD (f + 1) 0 - fptr.getD f 0)).foldl
    (fun acc jj =>
      List.zipWith (fun a b => a + b) acc
        ((B.row (fidsAt (pt.fids.getD 2 none) jj)).map (fun x => pt.vals.getD jj 0 * x)))
    (List.replicate B.J 0)

/-- `p_csf_ttmc_intl3`: TTM on the internal (middle) mode of a 3D CSF tile.
`A = mats[dim_perm[0]]`, `B = mats[dim_perm[2]]`; for each fiber the
accumulated nonzero vector is combined with the slice row `A[fid,:]` by an
outer product into `tenout + fids[f]*rankA*rankB`. -/
def p_csf_ttmc_intl3 (csf : SplattCsf) (tile_id : ℕ) (mats : ℕ → Mat)
    (tenout : ℕ → Val) : ℕ → Val :=
  let A := mats (csf.dim_perm.getD 0 0)
  let B := mats (csf.dim_perm.getD 2 0)
  let pt := csf.pt.getD tile_id emptySparsity
  let sptr := pt.fptr.getD 0 []
  (List.range (pt.nfibs.getD 0 0)).foldl
    (fun t s =>
      let fid := fidsAt (pt.fids.getD 0 none) s
      let av := A.row fid
      (List.range' (sptr.getD s 0) (sptr.getD (s + 1) 0 - sptr.getD s 0)).foldl
        (fun t2 f =>
          addAt t2 (fidsAt (pt.fids.getD 1 none) f * (A.J * B.J))
            (p_twovec_outer_prod av (fiberAccum pt B f)))
        t)
    tenout

/-- `p_csf_ttmc_leaf3`: TTM on the leaf mode of a 3D CSF tile.
`A = mats[dim_perm[0]]`, `B = mats[dim_perm[1]]`; each fiber's outer
product `A[fid,:] ⊗ B[fids[f],:]` is scaled by each nonzero value and
accumulated into `tenout + inds[jj]*rankA*rankB`. -/
def p_csf_ttmc_leaf3 (csf : SplattCsf) (tile_id : ℕ) (mats : ℕ → Mat)
    (tenout : ℕ → Val) : ℕ → Val :=
  let A := mats (csf.dim_perm.getD 0 0)
  let B := mats (csf.dim_perm.getD 1 0)
  let pt := csf.pt.getD tile_id emptySparsity
  let sptr := pt.fptr.getD 0 []
  let fptr := pt.fptr.getD 1 []
  (List.range (pt.nfibs.getD 0 0)).foldl
    (fun t s =>
      let fid := fidsAt (pt.fids.getD 0 none) s
      let av := A.row fid
      (List.range' (sptr.getD s 0) (sptr.getD (s + 1) 0 - sptr.getD s 0)).foldl
        (fun t2 f =>
          let oprod := p_twovec_outer_prod av (B.row (fidsAt (pt.fids.getD 1 none) f))
          (List.range' (fptr.getD f 0) (fptr.getD (f + 1) 0 - fptr.getD f 0)).foldl
            (fun t3 jj =>
              addAt t3 (fidsAt (pt.fids.getD 2 none) jj * (A.J * B.J))
                (oprod.map (fun x => pt.vals.getD jj 0 * x)))
            t2)
        t)
    tenout

/-- `p_csf_ttmc_root`: the generic root-mode TTMc routine dispatched by
`p_root_decide`.  In the source every accumulation statement is commented
out (the routine allocates per-level buffers, walks the index stack and
frees the buffers again, and its body references undefined identifiers);
no store to `tenout` exists anywhere in the function, so its effect on the
output buffer is the identity. -/
def p_csf_ttmc_root (_csf : SplattCsf) (_tile_id : ℕ) (_mats : ℕ → Mat)
    (tenout : ℕ → Val) : ℕ → Val :=
  tenout

/-- `p_clear_tenout`: zero the first `dims[mode] * ∏_{m≠mode} mats[m]->J`
entries of `tenout` (the C loop accumulates exactly this product). -/
def p_clear_tenout (tenout : ℕ → Val) (mats : ℕ → Mat) (nmodes : ℕ)
    (mode : ℕ) (dims : List ℕ) : ℕ → Val :=
  let outsize := dims.getD mode 0 *
    (((List.range nmodes).filter (fun m => m ≠ mode)).map (fun m => (mats m).J)).prod
  fun j => if j < outsize then 0 else tenout j

/-- Result of a TTMc dispatch: the final output buffer together with a flag
recording whether the call reached one of the `fprintf`/`exit(1)` failure
branches (the C terminates the process there; no status code is returned). -/
structure TtmcResult where
  tenout : ℕ → Val
  fatal : Bool

/-- `p_root_decide`: run the generic root kernel on tile 0 when untiled,
otherwise print an error and `exit(1)`. -/
def p_root_decide (tensor : SplattCsf) (mats : ℕ → Mat) (tenout : ℕ → Val) :
    TtmcResult :=
  match tensor.which_tile with
  | TileType.notile => ⟨p_csf_ttmc_root tensor 0 mats tenout, false⟩
  | _ => ⟨tenout, true⟩

/-- `p_intl_decide`: run the internal 3D kernel on tile 0 when untiled,
otherwise print an error and `exit(1)`. -/
def p_intl_decide (tensor : SplattCsf) (mats : ℕ → Mat) (tenout : ℕ → Val) :
    TtmcResult :=
  match tensor.which_tile with
  | TileType.notile => ⟨p_csf_ttmc_intl3 tensor 0 mats tenout, false⟩
  | _ => ⟨tenout, true⟩

/-- `p_leaf_decide`: run the leaf 3D kernel on tile 0 when untiled,
otherwise print an error and `exit(1)`. -/
def p_leaf_decide (tensor : SplattCsf) (mats : ℕ → Mat) (tenout : ℕ → Val) :
    TtmcResult :=
  match tensor.which_tile with
  | TileType.notile => ⟨p_csf_ttmc_leaf3 tensor 0 mats tenout, false⟩
  | _ => ⟨tenout, true⟩

def emptyCsf : SplattCsf :=
  ⟨0, [], [], TileType.notile, 0, [], []⟩

/-- `ttmc_csf`: clear the output slab, then dispatch on the CSF allocation
flavor and the depth of `mode` in the (first) representation, exactly as
the C `switch` does. -/
def ttmc_csf (tensors : List SplattCsf) (mats : ℕ → Mat) (tenout : ℕ → Val)
    (mode : ℕ) (alloc : CsfAlloc) : TtmcResult :=
  let t0 := tensors.getD 0 emptyCsf
  let cleared := p_clear_tenout tenout mats t0.nmodes mode t0.dims
  let nmodes := t0.nmodes
  match alloc with
  | CsfAlloc.onemode =>
    let outdepth := csf_mode_depth mode t0.dim_perm nmodes
    if outdepth = 0 then
      p_root_decide t0 mats cleared
    else if outdepth = nmodes - 1 then
      p_leaf_decide t0 mats cleared
    else
      p_intl_decide t0 mats cleared
  | CsfAlloc.twomode =>
    if mode = t0.dim_perm.getD (nmodes - 1) 0 then
      p_root_decide (tensors.getD 1 emptyCsf) mats cleared
    else
      let outdepth := csf_mode_depth mode t0.dim_perm nmodes
      if outdepth = 0 then
        p_root_decide t0 mats cleared
      else
        p_intl_decide t0 mats cleared
  | CsfAlloc.allmode =>
    p_root_decide (tensors.getD mode emptyCsf) mats cleared

def SPLATT_SUCCESS : ℕ := 0

/-- `splatt_ttmc`: the public entry point.  It wraps the flat caller arrays
into row-major matrix views with `J = ncolumns[m]`, runs `ttmc_csf`, and
unconditionally executes `return SPLATT_SUCCESS` — every failure inside
`ttmc_csf` goes through `exit(1)` (the `fatal` flag), never the return
value. -/
def splatt_ttmc (mode : ℕ) (ncolumns : ℕ → ℕ) (tensors : List SplattCsf)
    (matrices : ℕ → ℕ → Val) (tenout : ℕ → Val) (alloc : CsfAlloc) :
    TtmcResult × ℕ :=
  let mats : ℕ → Mat := fun m =>
    ⟨ncolumns m, fun i j => matrices m (i * ncolumns m + j)⟩
  (ttmc_csf tensors mats tenout mode alloc, SPLATT_SUCCESS)

/-- The Kronecker contribution of one nonzero in `ttmc_stream`: the nested
outer products of the given factor rows (listed outermost first) applied to
the vector `[v]`.  The C builds exactly this nesting bottom-up through the
per-mode `buffers[]`, skipping the output mode. -/
def streamContrib (rows : List (List Val)) (v : Val) : List Val :=
  match rows with
  | [] => [v]
  | r :: rest => p_twovec_outer_prod r (streamContrib rest v)

/-- `ttmc_stream`: the coordinate-form TTMc fallback.  For each nonzero
`n`, the nested Kronecker product of the non-output-mode factor rows
(modes ascending, outermost first) scaled by `vals[n]` is accumulated into
`tenout + ind[mode][n] * total_cols`. -/
def ttmc_stream (tt : Sptensor) (mats : ℕ → Mat) (tenout : ℕ → Val)
    (mode : ℕ) : ℕ → Val :=
  let nonModeModes := (List.range tt.nmodes).filter (fun m => m ≠ mode)
  let total_cols := (nonModeModes.map (fun m => (mats m).J)).prod
  let cleared := p_clear_tenout tenout mats tt.nmodes mode tt.dims
  (List.range tt.nnz).foldl
    (fun t n =>
      let rows := nonModeModes.map
        (fun m => (mats m).row ((tt.ind.getD m []).getD n 0))
      addAt t ((tt.ind.getD mode []).getD n 0 * total_cols)
        (streamContrib rows (tt.vals.getD n 0)))
    cleared

/-- `ttmc_csf_count_flops`: per tile, accumulate the descent-path terms
(`d = 1 .. depth-1`), the ascent-path terms (`d = nmodes-1` down to
`depth+1`) and, for a non-root mode, the final-join term. -/
def ttmc_csf_count_flops (csf : SplattCsf) (mode : ℕ) (nfactors : List ℕ) : ℕ :=
  let depth := csf_mode_depth mode csf.dim_perm csf.nmodes
  (List.range csf.ntiles).foldl
    (fun flops tile =>
      let pt := csf.pt.getD tile emptySparsity
      let down := (List.range' 1 (depth - 1)).foldl
        (fun st d =>
          let os := st.2 * nfactors.getD (csf.dim_perm.getD d 0) 0
          (st.1 + pt.nfibs.getD d 0 * os, os))
        (flops, nfactors.getD (csf.dim_perm.getD 0 0) 0)
      let up := ((List.range' (depth + 1) (csf.nmodes - 1 - depth)).reverse).foldl
        (fun st d =>
          let os := st.2 * nfactors.getD (csf.dim_perm.getD d 0) 0
          (st.1 + pt.nfibs.getD d 0 * os, os))
        (down.1, 1)
      if 0 < depth then
        up.1 + pt.nfibs.getD depth 0 * p_ttmc_outncols nfactors csf.nmodes mode
      else
        up.1)
    0

/-- `ttmc_coord_count_flops`: walk the modes from `nmodes-1` down to `0`,
skipping `mode`; multiply the running column product and add it to the
per-nonzero flop count; return `nnz` times that count. -/
def ttmc_coord_count_flops (tt : Sptensor) (mode : ℕ) (nfactors : List ℕ) : ℕ :=
  let st := ((List.range tt.nmodes).reverse).foldl
    (fun (st : ℕ × ℕ) m =>
      if m ≠ mode then
        (st.1 * nfactors.getD m 0, st.2 + st.1 * nfactors.getD m 0)
      else st)
    (1, 0)
  tt.nnz * st.2

/-! ## Lock pool (ttm.c mutex functions) -/

def NLOCKS : ℕ := 1024

/-- The array offsets into `locks[]` initialized by `p_init_locks`:
`i * 16` for `i < NLOCKS`. -/
def p_init_locks_offsets : List ℕ := (List.range NLOCKS).map (fun i => i * 16)

/-- The offset used by `p_splatt_set_lock` / `p_splatt_unset_lock` (and
hence by `ttmc_stream`): `(id % NLOCKS) * 16`. -/
def p_splatt_lock_offset (id : ℕ) : ℕ := (id % NLOCKS) * 16

/-- The offset acquired by `p_csf_ttmc_intl3`:
`omp_set_lock(locks + (fids[f] % NLOCKS))` — no `* 16` stride. -/
def intl3_lock_offset (id : ℕ) : ℕ := id % NLOCKS

/-- The offset acquired by `p_csf_ttmc_leaf3`:
`omp_set_lock(locks + (inds[jj] % NLOCKS))` — no `* 16` stride. -/
def leaf3_lock_offset (id : ℕ) : ℕ := id % NLOCKS

/-! ## CCD kernel (completion/ccd.c) -/

/-- The rank-R factor model (`tc_model`).  `factors m f i` is the C entry
`model->factors[m][f * dims[m] + i]` (column-major storage, column `f`
starting at offset `f * dims[m]`). -/
structure TcModel where
  nmodes : ℕ
  rank : ℕ
  dims : List ℕ
  factors : ℕ → ℕ → ℕ → Val

/-- The `(a_id, b_id, c_id, jj)` tuples visited by the three nested loops
of the 3-mode CCD traversal (`GRAB_SPARSITY`): slices `i < nfibs[0]` with
`a_id = fids[0]==NULL ? i : fids[0][i]`, fibers `fib ∈ [sptr[i], sptr[i+1])`
with `b_id = fids[1][fib]`, and nonzeros `jj ∈ [fptr[fib], fptr[fib+1])`
with `c_id = inds[jj]`, in traversal order. -/
def tileEntries (pt : CsfSparsity) : List (ℕ × ℕ × ℕ × ℕ) :=
  let sptr := pt.fptr.getD 0 []
  let fptr := pt.fptr.getD 1 []
  (List.range (pt.nfibs.getD 0 0)).flatMap (fun i =>
    let a_id := fidsAt (pt.fids.getD 0 none) i
    (List.range' (sptr.getD i 0) (sptr.getD (i + 1) 0 - sptr.getD i 0)).flatMap (fun fib =>
      let b_id := fidsAt (pt.fids.getD 1 none) fib
      (List.range' (fptr.getD fib 0) (fptr.getD (fib + 1) 0 - fptr.getD fib 0)).map (fun jj =>
        (a_id, b_id, fidsAt (pt.fids.getD 2 none) jj, jj))))

/-- One pointwise `+=` store into a scratch array (`numerator[o] += x`). -/
def accumAt (g : ℕ → Val) (i : ℕ) (x : Val) : ℕ → Val :=
  fun j => if j = i then g j + x else g j

/-- `p_process_root3`: for every nonzero, `numer[a_id] += residual[jj] *
bval * cval` and `denom[a_id] += sgrad * sgrad` with `sgrad = bval * cval`. -/
def p_process_root3 (csf : SplattCsf) (tile : ℕ) (f : ℕ) (model : TcModel)
    (numer denom : ℕ → Val) : (ℕ → Val) × (ℕ → Val) :=
  let pt := csf.pt.getD tile emptySparsity
  let avals := model.factors (csf.dim_perm.getD 0 0) f
  let bvals := model.factors (csf.dim_perm.getD 1 0) f
  let cvals := model.factors (csf.dim_perm.getD 2 0) f
  (tileEntries pt).foldl
    (fun nd e =>
      let _aval := avals e.1
      let bval := bvals e.2.1
      let cval := cvals e.2.2.1
      let sgrad := bval * cval
      (accumAt nd.1 e.1 (pt.vals.getD e.2.2.2 0 * bval * cval),
       accumAt nd.2 e.1 (sgrad * sgrad)))
    (numer, denom)

/-- `p_process_intl3`: for every nonzero, `numer[b_id] += residual[jj] *
sgrad` and `denom[b_id] += sgrad * sgrad` with `sgrad = aval * cval`. -/
def p_process_intl3 (csf : SplattCsf) (tile : ℕ) (f : ℕ) (model : TcModel)
    (numer denom : ℕ → Val) : (ℕ → Val) × (ℕ → Val) :=
  let pt := csf.pt.getD tile emptySparsity
  let avals := model.factors (csf.dim_perm.getD 0 0) f
  let cvals := model.factors (csf.dim_perm.getD 2 0) f
  (tileEntries pt).foldl
    (fun nd e =>
      let aval := avals e.1
      let cval := cvals e.2.2.1
      let sgrad := aval * cval
      (accumAt nd.1 e.2.1 (pt.vals.getD e.2.2.2 0 * sgrad),
       accumAt nd.2 e.2.1 (sgrad * sgrad)))
    (numer, denom)

/-- `p_process_leaf3`: for every nonzero, `numer[c_id] += residual[jj] *
predict` and `denom[c_id] += sgrad * sgrad` with
`predict = sgrad = aval * bval`. -/
def p_process_leaf3 (csf : SplattCsf) (tile : ℕ) (f : ℕ) (model : TcModel)
    (numer denom : ℕ → Val) : (ℕ → Val) × (ℕ → Val) :=
  let pt := csf.pt.getD tile emptySparsity
  let avals := model.factors (csf.dim_perm.getD 0 0) f
  let bvals := model.factors (csf.dim_perm.getD 1 0) f
  (tileEntries pt).foldl
    (fun nd e =>
      let aval := avals e.1
      let bval := bvals e.2.1
      let predict := aval * bval
      let sgrad := aval * bval
      (accumAt nd.1 e.2.2.1 (pt.vals.getD e.2.2.2 0 * predict),
       accumAt nd.2 e.2.2.1 (sgrad * sgrad)))
    (numer, denom)

/-- One tile of `p_update_residual3`: `residual[jj] += mult * aval * bval *
cval`, accumulating `myloss += residual[jj] * residual[jj]` with the
updated residual. -/
def updateResidualTile (avals bvals cvals : ℕ → Val) (mult : Val)
    (pt : CsfSparsity) : CsfSparsity × Val :=
  let res := (tileEntries pt).foldl
    (fun st e =>
      let nv := st.1.getD e.2.2.2 0 + mult * avals e.1 * bvals e.2.1 * cvals e.2.2.1
      (st.1.set e.2.2.2 nv, st.2 + nv * nv))
    (pt.vals, 0)
  ({ pt with vals := res.1 }, res.2)

/-- `p_update_residual3`: update the residual held in every tile's leaf
`vals[]` by `mult` times the column-`f` rank-one component, returning the
updated CSF and the accumulated squared loss.  (The OpenMP loop over tiles
distributes whole tiles; each tile is processed exactly once.) -/
def p_update_residual3 (csf : SplattCsf) (f : ℕ) (model : TcModel)
    (mult : Val) : SplattCsf × Val :=
  let avals := model.factors (csf.dim_perm.getD 0 0) f
  let bvals := model.factors (csf.dim_perm.getD 1 0) f
  let cvals := model.factors (csf.dim_perm.getD 2 0) f
  let updated := (List.range csf.ntiles).map
    (fun t => updateResidualTile avals bvals cvals mult (csf.pt.getD t emptySparsity))
  ({ csf with pt := updated.map (fun p => p.1) },
   (updated.map (fun p => p.2)).sum)

inductive NodeType
  | root
  | intl
  | leaf
deriving DecidableEq

/-- `which_depth`: classify mode `m` as root, internal or leaf from its
depth in `dim_perm`. -/
def which_depth (csf : SplattCsf) (m : ℕ) : NodeType :=
  let depth := csf_mode_depth m csf.dim_perm csf.nmodes
  if depth = 0 then NodeType.root
  else if depth = csf.nmodes - 1 then NodeType.leaf
  else NodeType.intl

/-- The mode-`m` pass of a CCD epoch for column `f` (the body of the
`foreach mode` loop in `splatt_tc_ccd`): initialize `numer[i] = 0` and
`denom[i] = regularization[m]` for `i < dims[m]`, process every tile with
the variant selected by `which_depth` (the tile-layer walker of tile.c,
modelled from the spec's §4.2 contract, hands each tile to exactly one
layer, so all tiles are processed once each), then set
`factors[m][f*dim + i] = numer[i] / denom[i]` for `i < dims[m]`. -/
def ccd_mode_pass (csf : SplattCsf) (m f : ℕ) (model : TcModel)
    (reg : ℕ → Val) (numer denom : ℕ → Val) :
    TcModel × ((ℕ → Val) × (ℕ → Val)) :=
  let dim := model.dims.getD m 0
  let numer0 : ℕ → Val := fun i => if i < dim then 0 else numer i
  let denom0 : ℕ → Val := fun i => if i < dim then reg m else denom i
  let which := which_depth csf m
  let nd := (List.range csf.ntiles).foldl
    (fun nd t =>
      match which with
      | NodeType.root => p_process_root3 csf t f model nd.1 nd.2
      | NodeType.intl => p_process_intl3 csf t f model nd.1 nd.2
      | NodeType.leaf => p_process_leaf3 csf t f model nd.1 nd.2)
    (numer0, denom0)
  ({ model with factors := fun m2 g i =>
      if m2 = m ∧ g = f ∧ i < dim then nd.1 i / nd.2 i else model.factors m2 g i },
   nd)

/-- The model's prediction for the nonzero whose level-0/1/2 coordinates
are `(a, b, c)`: `Σ_g A[:,g] B[:,g] C[:,g]` with the factors taken in
`dim_perm` order. -/
def predictAll (model : TcModel) (perm : List ℕ) (a b c : ℕ) : Val :=
  ((List.range model.rank).map (fun g =>
    model.factors (perm.getD 0 0) g a * model.factors (perm.getD 1 0) g b *
      model.factors (perm.getD 2 0) g c)).sum

/-- `tc_loss_sq`.  Modelled from the spec: completion.c is not part of the
sources; the spec (§4.4, P2, P3) defines the squared loss as the sum over
all training nonzeros of `(X - ⟨model⟩)²`, here taken over the CSF leaves
with `X t jj` the training value of leaf `jj` of tile `t`. -/
def tc_loss_sq (csf : SplattCsf) (X : ℕ → ℕ → Val) (model : TcModel) : Val :=
  ((List.range csf.ntiles).map (fun t =>
    let pt := csf.pt.getD t emptySparsity
    ((tileEntries pt).map (fun e =>
      let d := X t e.2.2.2 - predictAll model csf.dim_perm e.1 e.2.1 e.2.2.1
      d * d)).sum)).sum

/-- The sum over all tiles and leaves of `vals[]²`. -/
def sumSqVals (csf : SplattCsf) : Val :=
  ((List.range csf.ntiles).map (fun t =>
    (((csf.pt.getD t emptySparsity).vals).map (fun x => x * x)).sum)).sum

/-! ## Claim-side specification formulas -/

/-- Claim C1's defining formula for the TTMc output: the entry of `Y` at
row `i` and the column addressed by the multi-index `a` is the sum over
nonzeros whose mode-`mode` index is `i` of the value times the product of
the factor entries `U^(p)[i_p, a p]` over the modes `p` in `order`
(`dim_perm` with `mode` removed, root to leaf). -/
def ttmcSpecY (tt : Sptensor) (mats : ℕ → Mat) (mode : ℕ) (order : List ℕ)
    (i : ℕ) (a : ℕ → ℕ) : Val :=
  (((List.range tt.nnz).filter (fun n => (tt.ind.getD mode []).getD n 0 = i)).map
    (fun n => tt.vals.getD n 0 *
      (order.map (fun p => (mats p).vals ((tt.ind.getD p []).getD n 0) (a p))).prod)).sum

/-- Claim C7's formula as written: `nnz · Σ_{m' > 0, m' ≠ mode}
∏_{m'' ≥ m', m'' ≠ mode} ncol[m'']`. -/
def coordFlopsClaimC7 (nmodes mode : ℕ) (nfactors : List ℕ) : ℕ :=
  (((List.range nmodes).filter (fun m1 => 0 < m1 ∧ m1 ≠ mode)).map (fun m1 =>
    (((List.range' m1 (nmodes - m1)).filter (fun m2 => m2 ≠ mode)).map
      (fun m2 => nfactors.getD m2 0)).prod)).sum

/-- The corrected closed form of `ttmc_coord_count_flops`: the same sum
taken over all `m' ≠ mode`, including `m' = 0`. -/
def coordFlopsFormula (nmodes mode : ℕ) (nfactors : List ℕ) : ℕ :=
  (((List.range nmodes).filter (fun m1 => m1 ≠ mode)).map (fun m1 =>
    (((List.range' m1 (nmodes - m1)).filter (fun m2 => m2 ≠ mode)).map
      (fun m2 => nfactors.getD m2 0)).prod)).sum

/-- The output-row coordinate of an entry at depth `d`: the slice id, fiber
id, or leaf index. -/
def ccdCoordAt (d : ℕ) (e : ℕ × ℕ × ℕ × ℕ) : ℕ :=
  match d with
  | 0 => e.1
  | 1 => e.2.1
  | _ => e.2.2.1

/-- Claim C3's `s_ijk`: the product of the column-`f` values of the two
factors other than the one at depth `d`. -/
def ccdOtherProd (perm : List ℕ) (f : ℕ) (model : TcModel) (d : ℕ)
    (e : ℕ × ℕ × ℕ × ℕ) : Val :=
  let aval := model.factors (perm.getD 0 0) f e.1
  let bval := model.factors (perm.getD 1 0) f e.2.1
  let cval := model.factors (perm.getD 2 0) f e.2.2.1
  match d with
  | 0 => bval * cval
  | 1 => aval * cval
  | _ => aval * bval

/-- Claim C3's numerator: `Σ` over all nonzeros touching output row `o`
of `r_ijk * s_ijk`. -/
def ccdNumerSum (csf : SplattCsf) (f : ℕ) (model : TcModel) (d o : ℕ) : Val :=
  ((List.range csf.ntiles).map (fun t =>
    let pt := csf.pt.getD t emptySparsity
    (((tileEntries pt).filter (fun e => ccdCoordAt d e = o)).map (fun e =>
      pt.vals.getD e.2.2.2 0 * ccdOtherProd csf.dim_perm f model d e)).sum)).sum

/-- Claim C3's denominator contribution: `Σ` over all nonzeros touching
output row `o` of `s_ijk²`. -/
def ccdDenomSum (csf : SplattCsf) (f : ℕ) (model : TcModel) (d o : ℕ) : Val :=
  ((List.range csf.ntiles).map (fun t =>
    let pt := csf.pt.getD t emptySparsity
    (((tileEntries pt).filter (fun e => ccdCoordAt d e = o)).map (fun e =>
      ccdOtherProd csf.dim_perm f model d e * ccdOtherProd csf.dim_perm f model d e)).sum)).sum

/-! ## Concrete instances used by counterexamples and witnesses -/

/-- Rank-1 all-ones factor matrices. -/
def matsOnes : ℕ → Mat := fun _ => ⟨1, fun _ _ => 1⟩

/-- A one-nonzero 3-mode coordinate tensor: entry `(0,0,0) = 2` with
`dims = (1,1,1)`. -/
def ttEx : Sptensor := ⟨3, [1, 1, 1], 1, [[0], [0], [0]], [2]⟩

/-- The single CSF tile holding the nonzero `(0,0,0) = 2`. -/
def tileEx : CsfSparsity :=
  ⟨[1, 1, 1], [[0, 1], [0, 1]], [some [0], some [0], some [0]], [2]⟩

/-- The untiled CSF for `ttEx` with the identity mode permutation. -/
def csfEx : SplattCsf :=
  ⟨3, [1, 1, 1], [0, 1, 2], TileType.notile, 1, [1, 1, 1], [tileEx]⟩

/-- `csfEx` with dense tiling requested — an input the TTMc dispatchers
reject with `exit(1)`. -/
def csfExTiled : SplattCsf :=
  { csfEx with which_tile := TileType.densetile }

/-- A 3-mode one-nonzero tensor with `dims = (2,3,5)` for the flop-count
counterexample. -/
def ttC7 : Sptensor := ⟨3, [2, 3, 5], 1, [[0], [0], [0]], [1]⟩

/-- An all-ones rank-1 3-mode model on `1×1×1`. -/
def modelEx : TcModel := ⟨3, 1, [1, 1, 1], fun _ _ _ => 1⟩

/-- `modelEx` with column 0 of every factor replaced by 5 (all other
columns unchanged). -/
def modelExNew : TcModel :=
  ⟨3, 1, [1, 1, 1], fun _ g _ => if g = 0 then 5 else 1⟩

/-- `tileEx` with nonzero counts doubled at the root level, for the
flop-count monotonicity witness. -/
def tileExBig : CsfSparsity :=
  { tileEx with nfibs := [2, 3, 4] }

/-- `csfEx` with the bigger tile. -/
def csfExBig : SplattCsf :=
  { csfEx with pt := [tileExBig] }

/-! ## Theorems -/

/-- Claim C1 (code bug): the TTMc kernels dispatched by `ttmc_csf` are
claimed to compute `Y[i,:] = Σ x · ⊗_{p≠m} U⁽ᵖ⁾[i_p,:]`, but the root-mode
dispatch runs the unfinished `p_csf_ttmc_root`, which performs no
accumulation at all (its stores are commented out and the working
`p_csf_ttmc_root3` is disabled by `#if 0`).  On the one-nonzero tensor
`(0,0,0) = 2` with all-ones factors, a non-fatal `ttmc_csf` call for the
root mode leaves `Y[0,0] = 0`, while the claim's formula — and the
coordinate fallback `ttmc_stream`, which does satisfy it here — give `2`. -/
theorem ttmc_root_dispatch_drops_output :
    (ttmc_csf [csfEx] matsOnes (fun _ => 0) 0 CsfAlloc.onemode).fatal = false ∧
    (ttmc_csf [csfEx] matsOnes (fun _ => 0) 0 CsfAlloc.onemode).tenout 0 = 0 ∧
    ttmcSpecY ttEx matsOnes 0 [1, 2] 0 (fun _ => 0) = 2 ∧
    (ttmc_stream ttEx matsOnes (fun _ => 0) 0) 0 = 2 := by
  refine ⟨rfl, by decide, ?_, ?_⟩
  · norm_num [ttmcSpecY, ttEx, matsOnes, List.range_succ]
  · norm_num [ttmc_stream, ttEx, matsOnes, p_clear_tenout, streamContrib,
      p_twovec_outer_prod, addAt, Mat.row, List.range_succ]

/-- Claim C2 (code bug): the CSF_ALLMODE flavor is claimed to agree with
the coordinate stream fallback to within `1e-8` relative, but ALLMODE
always dispatches the unfinished root routine: on the one-nonzero tensor
`(0,0,0) = 2` with all-ones factors it returns `Y[0,0] = 0`, while
`ttmc_stream` returns `2` — a relative error of 1. -/
theorem ttmc_allmode_disagrees_with_stream :
    (ttmc_csf [csfEx, csfEx, csfEx] matsOnes (fun _ => 0) 0 CsfAlloc.allmode).fatal = false ∧
    (ttmc_csf [csfEx, csfEx, csfEx] matsOnes (fun _ => 0) 0 CsfAlloc.allmode).tenout 0 = 0 ∧
    (ttmc_stream ttEx matsOnes (fun _ => 0) 0) 0 = 2 ∧
    ¬ |(ttmc_csf [csfEx, csfEx, csfEx] matsOnes (fun _ => 0) 0 CsfAlloc.allmode).tenout 0
        - (ttmc_stream ttEx matsOnes (fun _ => 0) 0) 0|
      ≤ |(ttmc_stream ttEx matsOnes (fun _ => 0) 0) 0| / 100000000 := by
  refine ⟨rfl, by decide, ?_, ?_⟩
  · norm_num [ttmc_stream, ttEx, matsOnes, p_clear_tenout, streamContrib,
      p_twovec_outer_prod, addAt, Mat.row, List.range_succ]
  · norm_num [ttmc_csf, ttmc_stream, ttEx, csfEx, tileEx, matsOnes, p_clear_tenout,
      p_root_decide, p_csf_ttmc_root, streamContrib, p_twovec_outer_prod, addAt,
      Mat.row, List.range_succ, emptyCsf]

/-- Claim C5, counterexample: on an unsupported (tiled) input, `ttmc_csf`
reaches the `exit(1)` branch — so no status code is returned — yet the
caller's output buffer has already been overwritten: entry 0 held `1` on
entry and holds `0` afterwards, even though a precondition failed. -/
theorem ttmc_csf_mutates_output_on_failure :
    (ttmc_csf [csfExTiled] matsOnes (fun _ => 1) 0 CsfAlloc.onemode).fatal = true ∧
    (ttmc_csf [csfExTiled] matsOnes (fun _ => 1) 0 CsfAlloc.onemode).tenout 0 = 0 ∧
    (ttmc_csf [csfExTiled] matsOnes (fun _ => 1) 0 CsfAlloc.onemode).tenout 0 ≠ 1 := by
  refine ⟨rfl, by decide, by decide⟩

/-- Claim C6 (code bug): the internal and leaf TTMc kernels acquire
`locks + (id % NLOCKS)` — without the `× 16` stride used by
`p_splatt_set_lock` and by the initialization `p_init_locks` — so for
output id `1` they touch offset `1`, which is not among the initialized
stride-16 offsets, while the claimed offset `16` is. -/
theorem ttmc_intl_leaf_lock_offset_mismatch :
    intl3_lock_offset 1 = 1 ∧ leaf3_lock_offset 1 = 1 ∧
    p_splatt_lock_offset 1 = 16 ∧
    intl3_lock_offset 1 ∉ p_init_locks_offsets ∧
    p_splatt_lock_offset 1 ∈ p_init_locks_offsets := by
  refine ⟨rfl, rfl, rfl, ?_, ?_⟩
  · intro h
    simp only [p_init_locks_offsets, List.mem_map, intl3_lock_offset, NLOCKS] at h
    obtain ⟨i, -, hi⟩ := h
    omega
  · simp only [p_init_locks_offsets, List.mem_map, p_splatt_lock_offset, NLOCKS]
    exact ⟨1, List.mem_range.mpr (by norm_num), rfl⟩

/-- Claim C7, counterexample: on a 3-mode one-nonzero tensor with
`ncol = (2,3,5)` and `mode = 1`, `ttmc_coord_count_flops` returns `15`
(it also counts the `m' = 0` Kronecker level), while the claim's formula,
which sums only over `m' > 0`, gives `5`. -/
theorem ttmc_coord_count_flops_ne_claim :
    ttmc_coord_count_flops ttC7 1 [2, 3, 5] = 15 ∧
    ttC7.nnz * coordFlopsClaimC7 ttC7.nmodes 1 [2, 3, 5] = 5 ∧
    ttmc_coord_count_flops ttC7 1 [2, 3, 5]
      ≠ ttC7.nnz * coordFlopsClaimC7 ttC7.nmodes 1 [2, 3, 5] := by
  refine ⟨by decide, by decide, by decide⟩

/-- Claim C9: `splatt_ttmc` unconditionally ends in
`return SPLATT_SUCCESS`; every error inside the computation goes through
`exit(1)` (the `fatal` flag of the result), never the return code. -/
theorem splatt_ttmc_always_success (mode : ℕ) (ncolumns : ℕ → ℕ)
    (tensors : List SplattCsf) (matrices : ℕ → ℕ → Val) (tenout : ℕ → Val)
    (alloc : CsfAlloc) :
    (splatt_ttmc mode ncolumns tensors matrices tenout alloc).2 = SPLATT_SUCCESS :=
  rfl

theorem p_root_decide_fatal_tenout (t : SplattCsf) (mats : ℕ → Mat) (te : ℕ → Val)
    (h : (p_root_decide t mats te).fatal = true) : (p_root_decide t mats te).tenout = te := by
  cases ht : t.which_tile <;> simp [p_root_decide, ht, p_csf_ttmc_root] at h ⊢

theorem p_intl_decide_fatal_tenout (t : SplattCsf) (mats : ℕ → Mat) (te : ℕ → Val)
    (h : (p_intl_decide t mats te).fatal = true) : (p_intl_decide t mats te).tenout = te := by
  cases ht : t.which_tile <;> simp [p_intl_decide, ht] at h ⊢

theorem p_leaf_decide_fatal_tenout (t : SplattCsf) (mats : ℕ → Mat) (te : ℕ → Val)
    (h : (p_leaf_decide t mats te).fatal = true) : (p_leaf_decide t mats te).tenout = te := by
  cases ht : t.which_tile <;> simp [p_leaf_decide, ht] at h ⊢

theorem ttmc_csf_fatal_tenout (tensors : List SplattCsf) (mats : ℕ → Mat)
    (tenout : ℕ → Val) (mode : ℕ) (alloc : CsfAlloc)
    (h : (ttmc_csf tensors mats tenout mode alloc).fatal = true) :
    (ttmc_csf tensors mats tenout mode alloc).tenout
      = p_clear_tenout tenout mats (tensors.getD 0 emptyCsf).nmodes mode
          (tensors.getD 0 emptyCsf).dims := by
  revert h
  unfold ttmc_csf
  cases alloc <;> dsimp only
  all_goals repeat' split
  all_goals intro h
  all_goals first
    | exact p_root_decide_fatal_tenout _ _ _ h
    | exact p_leaf_decide_fatal_tenout _ _ _ h
    | exact p_intl_decide_fatal_tenout _ _ _ h

/-- Claim C5, amended: on a failing TTMc call no status code is returned —
the C reaches `exit(1)` (`fatal = true`) — and the caller's output slab has
nevertheless already been zeroed: after any failing `ttmc_csf` call, every
entry of the `dims[mode] × ∏_{m≠mode} ncolumns[m]` output prefix is `0`
(the zeroing happens before the precondition checks), while factor
matrices are never written by TTMc. -/
theorem ttmc_csf_failure_no_status_output_zeroed
    (tensors : List SplattCsf) (mats : ℕ → Mat) (tenout : ℕ → Val)
    (mode : ℕ) (alloc : CsfAlloc) (j : ℕ)
    (h : (ttmc_csf tensors mats tenout mode alloc).fatal = true)
    (hj : j < (tensors.getD 0 emptyCsf).dims.getD mode 0 *
      (((List.range (tensors.getD 0 emptyCsf).nmodes).filter (fun m => m ≠ mode)).map
        (fun m => (mats m).J)).prod) :
    (ttmc_csf tensors mats tenout mode alloc).tenout j = 0 := by
  rw [ttmc_csf_fatal_tenout tensors mats tenout mode alloc h]
  simp only [p_clear_tenout]
  rw [if_pos hj]

/-- Witness for `ttmc_csf_failure_no_status_output_zeroed` at the concrete
tiled (rejected) input. -/
theorem ttmc_csf_failure_witness :
    (ttmc_csf [csfExTiled] matsOnes (fun _ => 1) 0 CsfAlloc.onemode).tenout 0 = 0 :=
  ttmc_csf_failure_no_status_output_zeroed [csfExTiled] matsOnes (fun _ => 1) 0
    CsfAlloc.onemode 0 rfl (by decide)

/-- Claim C7, amended: `ttmc_coord_count_flops tt mode ncol` equals `nnz`
times the sum over all `m' ≠ mode` — including `m' = 0` — of the product
over `m'' ≥ m'` with `m'' ≠ mode` of `ncol[m'']`. -/
theorem ttmc_coord_count_flops_closed_form (tt : Sptensor) (mode : ℕ) (nf : List ℕ) :
    ttmc_coord_count_flops tt mode nf = tt.nnz * coordFlopsFormula tt.nmodes mode nf := by
  suffices h : ∀ (n a s : ℕ),
      ((List.range n).reverse).foldl
        (fun (st : ℕ × ℕ) m =>
          if m ≠ mode then (st.1 * nf.getD m 0, st.2 + st.1 * nf.getD m 0) else st)
        (a, s)
      = (a * (((List.range n).filter (fun m => m ≠ mode)).map (fun m => nf.getD m 0)).prod,
         s + a * coordFlopsFormula n mode nf) by
    unfold ttmc_coord_count_flops
    rw [h tt.nmodes 1 0]
    simp
  intro n
  induction n with
  | zero => intro a s; simp [coordFlopsFormula]
  | succ n ih =>
    intro a s
    have hrev : (List.range (n + 1)).reverse = n :: (List.range n).reverse := by
      rw [List.range_succ, List.reverse_append, List.reverse_singleton, List.singleton_append]
    rw [hrev, List.foldl_cons]
    by_cases hm : n = mode
    · rw [if_neg (fun hc => hc hm), ih a s]
      have hfilt : List.filter (fun m => m ≠ mode) [n] = [] := by
        simp [hm]
      have hP : List.filter (fun m => m ≠ mode) (List.range (n + 1))
          = List.filter (fun m => m ≠ mode) (List.range n) := by
        rw [List.range_succ, List.filter_append, hfilt, List.append_nil]
      have hF : coordFlopsFormula (n + 1) mode nf = coordFlopsFormula n mode nf := by
        unfold coordFlopsFormula
        rw [hP]
        refine congrArg List.sum (List.map_congr_left ?_)
        intro m1 hm1
        have hlt : m1 < n := List.mem_range.mp (List.mem_filter.mp hm1).1
        have he : n + 1 - m1 = (n - m1) + 1 := by omega
        rw [he, List.range'_concat]
        have he2 : m1 + 1 * (n - m1) = n := by omega
        rw [he2, List.filter_append, hfilt, List.append_nil]
      rw [hP, hF]
    · rw [if_pos hm, ih (a * nf.getD n 0) (s + a * nf.getD n 0)]
      have hfilt : List.filter (fun m => m ≠ mode) [n] = [n] := by
        simp [hm]
      have hP : (((List.range (n + 1)).filter (fun m => m ≠ mode)).map
            (fun m => nf.getD m 0)).prod
          = (((List.range n).filter (fun m => m ≠ mode)).map
            (fun m => nf.getD m 0)).prod * nf.getD n 0 := by
        rw [List.range_succ, List.filter_append, hfilt, List.map_append, List.prod_append]
        simp
      have hF : coordFlopsFormula (n + 1) mode nf
          = coordFlopsFormula n mode nf * nf.getD n 0 + nf.getD n 0 := by
        unfold coordFlopsFormula
        rw [List.range_succ, List.filter_append, hfilt, List.map_append, List.sum_append]
        have h1 : List.map (fun m1 =>
              (((List.range' m1 (n + 1 - m1)).filter (fun m2 => m2 ≠ mode)).map
                (fun m2 => nf.getD m2 0)).prod)
            ((List.range n).filter (fun m => m ≠ mode))
            = List.map (fun m1 =>
              ((((List.range' m1 (n - m1)).filter (fun m2 => m2 ≠ mode)).map
                (fun m2 => nf.getD m2 0)).prod) * nf.getD n 0)
            ((List.range n).filter (fun m => m ≠ mode)) := by
          refine List.map_congr_left ?_
          intro m1 hm1
          have hlt : m1 < n := List.mem_range.mp (List.mem_filter.mp hm1).1
          have he : n + 1 - m1 = (n - m1) + 1 := by omega
          rw [he, List.range'_concat]
          have he2 : m1 + 1 * (n - m1) = n := by omega
          rw [he2, List.filter_append, hfilt, List.map_append, List.prod_append]
          simp
        rw [h1, List.sum_map_mul_right]
        have h2 : List.map (fun m1 =>
              (((List.range' m1 (n + 1 - m1)).filter (fun m2 => m2 ≠ mode)).map
                (fun m2 => nf.getD m2 0)).prod) [n] = [nf.getD n 0] := by
          have he : n + 1 - n = 1 := by omega
          simp [he, List.range'_one, hm]
        rw [h2]
        simp
      rw [hP, hF]
      simp only [Prod.mk.injEq]
      exact ⟨by ring, by ring⟩

theorem list_map_prod_le (l : List ℕ) (f g : ℕ → ℕ) (h : ∀ x ∈ l, f x ≤ g x) :
    (l.map f).prod ≤ (l.map g).prod := by
  induction l with
  | nil => exact le_rfl
  | cons a l ih =>
    simp only [List.map_cons, List.prod_cons]
    exact Nat.mul_le_mul (h a (List.mem_cons_self a l))
      (ih (fun x hx => h x (List.mem_cons_of_mem a hx)))

theorem foldl_mono_nat (l : List ℕ) (f g : ℕ → ℕ → ℕ)
    (hstep : ∀ x y t, x ≤ y → f x t ≤ g y t) :
    ∀ x y, x ≤ y → l.foldl f x ≤ l.foldl g y := by
  induction l with
  | nil => intro x y h; exact h
  | cons a l ih =>
    intro x y h
    simp only [List.foldl_cons]
    exact ih (f x a) (g y a) (hstep x y a h)

theorem flops_pair_fold_mono (l : List ℕ) (F G F2 G2 : ℕ → ℕ)
    (hF : ∀ d, F d ≤ F2 d) (hG : ∀ d, G d ≤ G2 d) :
    ∀ (p q : ℕ × ℕ), p.1 ≤ q.1 → p.2 ≤ q.2 →
      (l.foldl (fun st d => (st.1 + F d * (st.2 * G d), st.2 * G d)) p).1
          ≤ (l.foldl (fun st d => (st.1 + F2 d * (st.2 * G2 d), st.2 * G2 d)) q).1
      ∧ (l.foldl (fun st d => (st.1 + F d * (st.2 * G d), st.2 * G d)) p).2
          ≤ (l.foldl (fun st d => (st.1 + F2 d * (st.2 * G2 d), st.2 * G2 d)) q).2 := by
  induction l with
  | nil => intro p q h1 h2; exact ⟨h1, h2⟩
  | cons a l ih =>
    intro p q h1 h2
    simp only [List.foldl_cons]
    exact ih _ _ (Nat.add_le_add h1 (Nat.mul_le_mul (hF a) (Nat.mul_le_mul h2 (hG a))))
      (Nat.mul_le_mul h2 (hG a))

/-- Claim C8: `ttmc_csf_count_flops` is monotone — raising any per-tile
`nfibs` count or any entry of the `ncolumns` vector (pointwise, with the
tensor structure otherwise unchanged) never decreases the returned flop
count. -/
theorem ttmc_csf_count_flops_monotone
    (csf csf2 : SplattCsf) (mode : ℕ) (nf nf2 : List ℕ)
    (hn : csf2.nmodes = csf.nmodes) (hp : csf2.dim_perm = csf.dim_perm)
    (ht : csf2.ntiles = csf.ntiles)
    (hfib : ∀ t d, (csf.pt.getD t emptySparsity).nfibs.getD d 0
        ≤ (csf2.pt.getD t emptySparsity).nfibs.getD d 0)
    (hnf : ∀ m, nf.getD m 0 ≤ nf2.getD m 0) :
    ttmc_csf_count_flops csf mode nf ≤ ttmc_csf_count_flops csf2 mode nf2 := by
  unfold ttmc_csf_count_flops
  rw [hn, hp, ht]
  have hprod : p_ttmc_outncols nf csf.nmodes mode ≤ p_ttmc_outncols nf2 csf.nmodes mode := by
    unfold p_ttmc_outncols
    exact list_map_prod_le _ _ _ (fun x _ => hnf x)
  refine foldl_mono_nat _ _ _ ?_ 0 0 le_rfl
  intro x y t h
  dsimp only
  have hdown := flops_pair_fold_mono
    (List.range' 1 (csf_mode_depth mode csf.dim_perm csf.nmodes - 1))
    (fun d => (csf.pt.getD t emptySparsity).nfibs.getD d 0)
    (fun d => nf.getD (csf.dim_perm.getD d 0) 0)
    (fun d => (csf2.pt.getD t emptySparsity).nfibs.getD d 0)
    (fun d => nf2.getD (csf.dim_perm.getD d 0) 0)
    (fun d => hfib t d) (fun d => hnf _)
    (x, nf.getD (csf.dim_perm.getD 0 0) 0) (y, nf2.getD (csf.dim_perm.getD 0 0) 0)
    h (hnf _)
  have hup := flops_pair_fold_mono
    ((List.range' (csf_mode_depth mode csf.dim_perm csf.nmodes + 1)
      (csf.nmodes - 1 - csf_mode_depth mode csf.dim_perm csf.nmodes)).reverse)
    (fun d => (csf.pt.getD t emptySparsity).nfibs.getD d 0)
    (fun d => nf.getD (csf.dim_perm.getD d 0) 0)
    (fun d => (csf2.pt.getD t emptySparsity).nfibs.getD d 0)
    (fun d => nf2.getD (csf.dim_perm.getD d 0) 0)
    (fun d => hfib t d) (fun d => hnf _)
    (_, 1) (_, 1) hdown.1 le_rfl
  by_cases hd : 0 < csf_mode_depth mode csf.dim_perm csf.nmodes
  · rw [if_pos hd, if_pos hd]
    exact Nat.add_le_add hup.1 (Nat.mul_le_mul (hfib t _) hprod)
  · rw [if_neg hd, if_neg hd]
    exact hup.1

/-- Witness for `ttmc_csf_count_flops_monotone` on concrete tensors with
enlarged fiber counts and column counts. -/
theorem ttmc_csf_count_flops_monotone_witness :
    ttmc_csf_count_flops csfEx 2 [1, 1, 1] ≤ ttmc_csf_count_flops csfExBig 2 [2, 2, 2] :=
  ttmc_csf_count_flops_monotone csfEx csfExBig 2 [1, 1, 1] [2, 2, 2] rfl rfl rfl
    (by
      intro t d
      cases t with
      | zero => rcases d with _ | _ | _ | d <;>
          simp [csfEx, csfExBig, tileEx, tileExBig, List.getD]
      | succ t => simp [csfEx, csfExBig, List.getD])
    (by intro m; rcases m with _ | _ | _ | m <;> simp [List.getD])

theorem accum_pair_fold {α : Type} (l : List α) (c : α → ℕ) (u v : α → Val) :
    ∀ (nd : (ℕ → Val) × (ℕ → Val)) (o : ℕ),
      ((l.foldl (fun nd e => (accumAt nd.1 (c e) (u e), accumAt nd.2 (c e) (v e))) nd).1 o
        = nd.1 o + ((l.filter (fun e => c e = o)).map u).sum)
      ∧ ((l.foldl (fun nd e => (accumAt nd.1 (c e) (u e), accumAt nd.2 (c e) (v e))) nd).2 o
        = nd.2 o + ((l.filter (fun e => c e = o)).map v).sum) := by
  induction l with
  | nil => intro nd o; simp
  | cons e l ih =>
    intro nd o
    simp only [List.foldl_cons, List.filter_cons]
    by_cases hc : c e = o
    · subst hc
      simp only [decide_eq_true_eq, eq_self_iff_true, if_true]
      refine ⟨((ih _ _).1).trans ?_, ((ih _ _).2).trans ?_⟩
      · simp [accumAt, add_assoc]
      · simp [accumAt, add_assoc]
    · have hd : (decide (c e = o)) = false := by simp [hc]
      simp only [hd, Bool.false_eq_true, if_false]
      refine ⟨((ih _ _).1).trans ?_, ((ih _ _).2).trans ?_⟩
      · dsimp only
        have ha : (accumAt nd.1 (c e) (u e)) o = nd.1 o := by
          simp only [accumAt]
          exact if_neg (fun h => hc h.symm)
        rw [ha]
      · dsimp only
        have ha : (accumAt nd.2 (c e) (v e)) o = nd.2 o := by
          simp only [accumAt]
          exact if_neg (fun h => hc h.symm)
        rw [ha]

theorem tile_fold_add {α : Type} (l : List α)
    (step : ((ℕ → Val) × (ℕ → Val)) → α → ((ℕ → Val) × (ℕ → Val)))
    (c1 c2 : α → Val) (o : ℕ)
    (hstep : ∀ nd t, (step nd t).1 o = nd.1 o + c1 t ∧ (step nd t).2 o = nd.2 o + c2 t) :
    ∀ nd0, ((l.foldl step nd0).1 o = nd0.1 o + (l.map c1).sum)
         ∧ ((l.foldl step nd0).2 o = nd0.2 o + (l.map c2).sum) := by
  induction l with
  | nil => intro nd0; simp
  | cons t l ih =>
    intro nd0
    simp only [List.foldl_cons, List.map_cons, List.sum_cons]
    constructor
    · rw [(ih _).1, (hstep nd0 t).1, add_assoc]
    · rw [(ih _).2, (hstep nd0 t).2, add_assoc]

theorem headD_filter_range_le (n : ℕ) (p : ℕ → Bool) (hn : 0 < n) :
    ((List.range n).filter p).headD 0 ≤ n - 1 := by
  cases hfl : (List.range n).filter p with
  | nil => simp
  | cons a l =>
    have ha : a ∈ (List.range n).filter p := by rw [hfl]; exact List.mem_cons_self a l
    have := List.mem_range.mp (List.mem_filter.mp ha).1
    simp only [List.headD_cons]
    omega

/-- Claim C3: after the mode-`m` pass of a CCD epoch (dispatching to
`p_process_root3`, `p_process_intl3` or `p_process_leaf3` according to
`depth(m)`, the position of `m` in `dim_perm`), every output row
`o < dims[m]` satisfies `numerator[o] = Σ r_ijk · s_ijk` and
`denominator[o] = λ_m + Σ s_ijk²`, the sums ranging over the nonzeros whose
depth-`depth(m)` coordinate is `o`, with `s_ijk` the product of the two
other factors' column-`f` values at the nonzero; the factor column is then
updated to `A⁽ᵐ⁾[o,f] = numerator[o] / denominator[o]`. -/
theorem ccd_mode_pass_numer_denom
    (csf : SplattCsf) (m f : ℕ) (model : TcModel) (reg : ℕ → Val)
    (numer denom : ℕ → Val)
    (hnm : csf.nmodes = 3)
    (hmode : csf.dim_perm.getD (csf_mode_depth m csf.dim_perm csf.nmodes) 0 = m)
    (o : ℕ) (ho : o < model.dims.getD m 0) :
    (ccd_mode_pass csf m f model reg numer denom).2.1 o
      = ccdNumerSum csf f model (csf_mode_depth m csf.dim_perm csf.nmodes) o
    ∧ (ccd_mode_pass csf m f model reg numer denom).2.2 o
      = reg m + ccdDenomSum csf f model (csf_mode_depth m csf.dim_perm csf.nmodes) o
    ∧ (ccd_mode_pass csf m f model reg numer denom).1.factors m f o
      = (ccd_mode_pass csf m f model reg numer denom).2.1 o
        / (ccd_mode_pass csf m f model reg numer denom).2.2 o := by
  have hk : csf_mode_depth m csf.dim_perm csf.nmodes ≤ 2 := by
    unfold csf_mode_depth
    rw [hnm]
    exact headD_filter_range_le 3 _ (by norm_num)
  have hcases : csf_mode_depth m csf.dim_perm csf.nmodes = 0
      ∨ csf_mode_depth m csf.dim_perm csf.nmodes = 1
      ∨ csf_mode_depth m csf.dim_perm csf.nmodes = 2 := by omega
  rcases hcases with h | h | h
  · -- root
    have hw : which_depth csf m = NodeType.root := by
      unfold which_depth
      rw [h]
      rfl
    unfold ccd_mode_pass
    rw [hw, h]
    dsimp only
    obtain ⟨h1, h2⟩ := tile_fold_add (List.range csf.ntiles)
      (fun nd t => p_process_root3 csf t f model nd.1 nd.2)
      (fun t => (((tileEntries (csf.pt.getD t emptySparsity)).filter (fun e => e.1 = o)).map
        (fun e => (csf.pt.getD t emptySparsity).vals.getD e.2.2.2 0 *
          model.factors (csf.dim_perm.getD 1 0) f e.2.1 *
          model.factors (csf.dim_perm.getD 2 0) f e.2.2.1)).sum)
      (fun t => (((tileEntries (csf.pt.getD t emptySparsity)).filter (fun e => e.1 = o)).map
        (fun e => (model.factors (csf.dim_perm.getD 1 0) f e.2.1 *
            model.factors (csf.dim_perm.getD 2 0) f e.2.2.1) *
          (model.factors (csf.dim_perm.getD 1 0) f e.2.1 *
            model.factors (csf.dim_perm.getD 2 0) f e.2.2.1))).sum)
      o
      (fun nd t => by
        unfold p_process_root3
        exact accum_pair_fold (tileEntries (csf.pt.getD t emptySparsity)) (fun e => e.1)
          _ _ nd o)
      (fun i => if i < model.dims.getD m 0 then 0 else numer i,
       fun i => if i < model.dims.getD m 0 then reg m else denom i)
    refine ⟨?_, ?_, ?_⟩
    · rw [h1]
      dsimp only
      rw [if_pos ho, zero_add]
      dsimp only [ccdNumerSum, ccdCoordAt, ccdOtherProd]
      all_goals exact congrArg List.sum (List.map_congr_left (fun t _ =>
        congrArg List.sum (List.map_congr_left (fun e _ => by ring))))
    · rw [h2]
      dsimp only
      rw [if_pos ho]
      dsimp only [ccdDenomSum, ccdCoordAt, ccdOtherProd]
      all_goals exact congrArg (fun x => reg m + x) (congrArg List.sum
        (List.map_congr_left (fun t _ =>
          congrArg List.sum (List.map_congr_left (fun e _ => by ring)))))
    · rw [if_pos (⟨rfl, rfl, ho⟩ : m = m ∧ f = f ∧ o < model.dims.getD m 0)]
  · -- internal
    have hw : which_depth csf m = NodeType.intl := by
      unfold which_depth
      rw [h, hnm]
      rfl
    unfold ccd_mode_pass
    rw [hw, h]
    dsimp only
    obtain ⟨h1, h2⟩ := tile_fold_add (List.range csf.ntiles)
      (fun nd t => p_process_intl3 csf t f model nd.1 nd.2)
      (fun t => (((tileEntries (csf.pt.getD t emptySparsity)).filter (fun e => e.2.1 = o)).map
        (fun e => (csf.pt.getD t emptySparsity).vals.getD e.2.2.2 0 *
          (model.factors (csf.dim_perm.getD 0 0) f e.1 *
            model.factors (csf.dim_perm.getD 2 0) f e.2.2.1))).sum)
      (fun t => (((tileEntries (csf.pt.getD t emptySparsity)).filter (fun e => e.2.1 = o)).map
        (fun e => (model.factors (csf.dim_perm.getD 0 0) f e.1 *
            model.factors (csf.dim_perm.getD 2 0) f e.2.2.1) *
          (model.factors (csf.dim_perm.getD 0 0) f e.1 *
            model.factors (csf.dim_perm.getD 2 0) f e.2.2.1))).sum)
      o
      (fun nd t => by
        unfold p_process_intl3
        exact accum_pair_fold (tileEntries (csf.pt.getD t emptySparsity)) (fun e => e.2.1)
          _ _ nd o)
      (fun i => if i < model.dims.getD m 0 then 0 else numer i,
       fun i => if i < model.dims.getD m 0 then reg m else denom i)
    refine ⟨?_, ?_, ?_⟩
    · rw [h1]
      dsimp only
      rw [if_pos ho, zero_add]
      dsimp only [ccdNumerSum, ccdCoordAt, ccdOtherProd]
      all_goals exact congrArg List.sum (List.map_congr_left (fun t _ =>
        congrArg List.sum (List.map_congr_left (fun e _ => by ring))))
    · rw [h2]
      dsimp only
      rw [if_pos ho]
      dsimp only [ccdDenomSum, ccdCoordAt, ccdOtherProd]
      all_goals exact congrArg (fun x => reg m + x) (congrArg List.sum
        (List.map_congr_left (fun t _ =>
          congrArg List.sum (List.map_congr_left (fun e _ => by ring)))))
    · rw [if_pos (⟨rfl, rfl, ho⟩ : m = m ∧ f = f ∧ o < model.dims.getD m 0)]
  · -- leaf
    have hw : which_depth csf m = NodeType.leaf := by
      unfold which_depth
      rw [h, hnm]
      rfl
    unfold ccd_mode_pass
    rw [hw, h]
    dsimp only
    obtain ⟨h1, h2⟩ := tile_fold_add (List.range csf.ntiles)
      (fun nd t => p_process_leaf3 csf t f model nd.1 nd.2)
      (fun t => (((tileEntries (csf.pt.getD t emptySparsity)).filter (fun e => e.2.2.1 = o)).map
        (fun e => (csf.pt.getD t emptySparsity).vals.getD e.2.2.2 0 *
          (model.factors (csf.dim_perm.getD 0 0) f e.1 *
            model.factors (csf.dim_perm.getD 1 0) f e.2.1))).sum)
      (fun t => (((tileEntries (csf.pt.getD t emptySparsity)).filter (fun e => e.2.2.1 = o)).map
        (fun e => (model.factors (csf.dim_perm.getD 0 0) f e.1 *
            model.factors (csf.dim_perm.getD 1 0) f e.2.1) *
          (model.factors (csf.dim_perm.getD 0 0) f e.1 *
            model.factors (csf.dim_perm.getD 1 0) f e.2.1))).sum)
      o
      (fun nd t => by
        unfold p_process_leaf3
        exact accum_pair_fold (tileEntries (csf.pt.getD t emptySparsity)) (fun e => e.2.2.1)
          _ _ nd o)
      (fun i => if i < model.dims.getD m 0 then 0 else numer i,
       fun i => if i < model.dims.getD m 0 then reg m else denom i)
    refine ⟨?_, ?_, ?_⟩
    · rw [h1]
      dsimp only
      rw [if_pos ho, zero_add]
      dsimp only [ccdNumerSum, ccdCoordAt, ccdOtherProd]
      all_goals exact congrArg List.sum (List.map_congr_left (fun t _ =>
        congrArg List.sum (List.map_congr_left (fun e _ => by ring))))
    · rw [h2]
      dsimp only
      rw [if_pos ho]
      dsimp only [ccdDenomSum, ccdCoordAt, ccdOtherProd]
      all_goals exact congrArg (fun x => reg m + x) (congrArg List.sum
        (List.map_congr_left (fun t _ =>
          congrArg List.sum (List.map_congr_left (fun e _ => by ring)))))
    · rw [if_pos (⟨rfl, rfl, ho⟩ : m = m ∧ f = f ∧ o < model.dims.getD m 0)]

/-- Witness for `ccd_mode_pass_numer_denom` on the concrete one-nonzero
CSF with the all-ones model. -/
theorem ccd_mode_pass_numer_denom_witness :
    (ccd_mode_pass csfEx 0 0 modelEx (fun _ => 1) (fun _ => 9) (fun _ => 9)).2.1 0
      = ccdNumerSum csfEx 0 modelEx (csf_mode_depth 0 csfEx.dim_perm csfEx.nmodes) 0
    ∧ (ccd_mode_pass csfEx 0 0 modelEx (fun _ => 1) (fun _ => 9) (fun _ => 9)).2.2 0
      = (fun _ => (1 : Val)) 0
        + ccdDenomSum csfEx 0 modelEx (csf_mode_depth 0 csfEx.dim_perm csfEx.nmodes) 0
    ∧ (ccd_mode_pass csfEx 0 0 modelEx (fun _ => 1) (fun _ => 9) (fun _ => 9)).1.factors 0 0 0
      = (ccd_mode_pass csfEx 0 0 modelEx (fun _ => 1) (fun _ => 9) (fun _ => 9)).2.1 0
        / (ccd_mode_pass csfEx 0 0 modelEx (fun _ => 1) (fun _ => 9) (fun _ => 9)).2.2 0 :=
  ccd_mode_pass_numer_denom csfEx 0 0 modelEx (fun _ => 1) (fun _ => 9) (fun _ => 9)
    rfl (by decide) 0 (by decide)

theorem take_succ_set {α : Type} :
    ∀ (l : List α) (k : ℕ) (v : α), k < l.length →
      (l.set k v).take (k + 1) = l.take k ++ [v] := by
  intro l
  induction l with
  | nil => intro k v hk; simp at hk
  | cons a t ih =>
    intro k v hk
    cases k with
    | zero => rfl
    | succ k =>
      simp only [List.set_cons_succ, List.take_succ_cons]
      rw [ih k v (by simpa using hk)]
      rfl

theorem getD_map_range {α : Type} (n : ℕ) (g : ℕ → α) (t : ℕ) (ht : t < n) (dflt : α) :
    ((List.range n).map g).getD t dflt = g t := by
  rw [List.getD_eq_getElem _ _ (by simpa using ht)]
  simp

theorem getD_of_map_cover {α : Type} (es : List α) (jjOf : α → ℕ) (g : α → Val) (n : ℕ)
    (hcov : es.map jjOf = List.range n) (e : α) (he : e ∈ es) :
    (es.map g).getD (jjOf e) 0 = g e := by
  obtain ⟨i, hi, rfl⟩ := List.mem_iff_get.mp he
  have hjj : jjOf (es.get i) = i.1 := by
    have h1 : (es.map jjOf).get ⟨i.1, by simpa using i.2⟩ = jjOf (es.get i) := by
      simp
    have h2 : (List.range n).get ⟨i.1, by rw [← hcov]; simpa using i.2⟩ = i.1 := by
      simp
    rw [← h1]
    rw [List.get_of_eq hcov]
    exact h2
  rw [hjj, List.getD_eq_getElem _ _ (by simpa using i.2)]
  simp

theorem setfold_range {α : Type} (jjOf : α → ℕ) (δ : α → Val) :
    ∀ (es : List α) (vals : List Val) (l0 : Val) (k : ℕ),
      es.map jjOf = List.range' k (vals.length - k) →
      k ≤ vals.length →
      (es.foldl (fun st e =>
          (st.1.set (jjOf e) (st.1.getD (jjOf e) 0 + δ e),
           st.2 + (st.1.getD (jjOf e) 0 + δ e) * (st.1.getD (jjOf e) 0 + δ e)))
        (vals, l0))
        = (vals.take k ++ es.map (fun e => vals.getD (jjOf e) 0 + δ e),
           l0 + (es.map (fun e => (vals.getD (jjOf e) 0 + δ e)
             * (vals.getD (jjOf e) 0 + δ e))).sum) := by
  intro es
  induction es with
  | nil =>
    intro vals l0 k hcov hk
    simp only [List.map_nil, List.foldl_nil, List.append_nil, List.sum_nil, add_zero]
    have hlen : vals.length - k = 0 := by
      by_contra hne
      rw [show vals.length - k = (vals.length - k - 1) + 1 by omega, List.range'_succ] at hcov
      exact List.cons_ne_nil _ _ hcov.symm
    have : k = vals.length := by omega
    rw [this, List.take_length]
  | cons e rest ih =>
    intro vals l0 k hcov hk
    have hm : vals.length - k ≠ 0 := by
      intro h0
      rw [h0, List.range'_zero] at hcov
      simp at hcov
    rw [show vals.length - k = (vals.length - k - 1) + 1 by omega, List.range'_succ] at hcov
    simp only [List.map_cons, List.cons.injEq] at hcov
    obtain ⟨he, hrest⟩ := hcov
    have hklen : k < vals.length := by omega
    simp only [List.foldl_cons]
    have hset_len : (vals.set (jjOf e) (vals.getD (jjOf e) 0 + δ e)).length = vals.length :=
      List.length_set vals _ _
    have hrest2 : rest.map jjOf
        = List.range' (k + 1)
            ((vals.set (jjOf e) (vals.getD (jjOf e) 0 + δ e)).length - (k + 1)) := by
      rw [hset_len]
      rw [hrest]
      congr 1
    have ihx := ih (vals.set (jjOf e) (vals.getD (jjOf e) 0 + δ e))
      (l0 + (vals.getD (jjOf e) 0 + δ e) * (vals.getD (jjOf e) 0 + δ e)) (k + 1)
      hrest2 (by omega)
    rw [ihx]
    have hgd : ∀ e2 ∈ rest,
        (vals.set (jjOf e) (vals.getD (jjOf e) 0 + δ e)).getD (jjOf e2) 0
          = vals.getD (jjOf e2) 0 := by
      intro e2 he2
      have : jjOf e2 ∈ List.range' (k + 1) (vals.length - k - 1) := by
        rw [← hrest]
        exact List.mem_map_of_mem jjOf he2
      have hge : k + 1 ≤ jjOf e2 := by
        obtain ⟨i, hi, hei⟩ := List.mem_range'.mp this
        omega
      have hne : jjOf e ≠ jjOf e2 := by omega
      rw [List.getD_eq_getElem?_getD, List.getD_eq_getElem?_getD,
        List.getElem?_set_ne hne]
      exact (List.getD_eq_getElem?_getD vals _ 0).symm
    have htake : (vals.set (jjOf e) (vals.getD (jjOf e) 0 + δ e)).take (k + 1)
        = vals.take k ++ [vals.getD (jjOf e) 0 + δ e] := by
      rw [he]
      exact take_succ_set vals k _ hklen
    rw [htake]
    have hmap1 : rest.map (fun e2 =>
          (vals.set (jjOf e) (vals.getD (jjOf e) 0 + δ e)).getD (jjOf e2) 0 + δ e2)
        = rest.map (fun e2 => vals.getD (jjOf e2) 0 + δ e2) :=
      List.map_congr_left (fun e2 he2 => by rw [hgd e2 he2])
    have hmap2 : rest.map (fun e2 =>
          ((vals.set (jjOf e) (vals.getD (jjOf e) 0 + δ e)).getD (jjOf e2) 0 + δ e2)
            * ((vals.set (jjOf e) (vals.getD (jjOf e) 0 + δ e)).getD (jjOf e2) 0 + δ e2))
        = rest.map (fun e2 => (vals.getD (jjOf e2) 0 + δ e2)
            * (vals.getD (jjOf e2) 0 + δ e2)) :=
      List.map_congr_left (fun e2 he2 => by rw [hgd e2 he2])
    rw [hmap1, hmap2]
    simp only [Prod.mk.injEq]
    constructor
    · rw [List.append_assoc]
      rfl
    · rw [List.map_cons, List.sum_cons, ← add_assoc]

theorem sum_range_update (R f : ℕ) (hf : f < R) (u w : ℕ → Val)
    (h : ∀ g, g ≠ f → u g = w g) :
    ((List.range R).map u).sum = ((List.range R).map w).sum - w f + u f := by
  induction R with
  | zero => omega
  | succ R ih =>
    rw [List.range_succ, List.map_append, List.sum_append, List.map_append, List.sum_append]
    simp only [List.map_cons, List.map_nil, List.sum_cons, List.sum_nil]
    by_cases hfR : f = R
    · subst hfR
      have hcongr : (List.range f).map u = (List.range f).map w :=
        List.map_congr_left (fun g hg => h g (by
          have := List.mem_range.mp hg
          omega))
      rw [hcongr]
      ring
    · have hfR2 : f < R := by omega
      rw [ih hfR2, h R (fun hc => hfR hc.symm)]
      ring

theorem predictAll_column_update (model modelN : TcModel) (f : ℕ) (perm : List ℕ)
    (hf : f < model.rank) (hrank : modelN.rank = model.rank)
    (hagree : ∀ mo g i, g ≠ f → modelN.factors mo g i = model.factors mo g i)
    (a b c : ℕ) :
    predictAll modelN perm a b c
      = predictAll model perm a b c
        - model.factors (perm.getD 0 0) f a * model.factors (perm.getD 1 0) f b
            * model.factors (perm.getD 2 0) f c
        + modelN.factors (perm.getD 0 0) f a * modelN.factors (perm.getD 1 0) f b
            * modelN.factors (perm.getD 2 0) f c := by
  unfold predictAll
  rw [hrank]
  exact sum_range_update model.rank f hf _ _
    (fun g hg => by rw [hagree _ _ _ hg, hagree _ _ _ hg, hagree _ _ _ hg])

theorem tileEntries_updateResidualTile (avals bvals cvals : ℕ → Val) (mult : Val)
    (pt : CsfSparsity) :
    tileEntries (updateResidualTile avals bvals cvals mult pt).1 = tileEntries pt := rfl

theorem updateResidualTile_vals (avals bvals cvals : ℕ → Val) (mult : Val)
    (pt : CsfSparsity)
    (hcov : (tileEntries pt).map (fun e => e.2.2.2) = List.range pt.vals.length) :
    (updateResidualTile avals bvals cvals mult pt).1.vals
      = (tileEntries pt).map (fun e =>
          pt.vals.getD e.2.2.2 0 + mult * avals e.1 * bvals e.2.1 * cvals e.2.2.1) := by
  have h2 := setfold_range (fun e : ℕ × ℕ × ℕ × ℕ => e.2.2.2)
    (fun e => mult * avals e.1 * bvals e.2.1 * cvals e.2.2.1)
    (tileEntries pt) pt.vals 0 0
    (by rw [Nat.sub_zero, ← List.range_eq_range']; exact hcov)
    (Nat.zero_le _)
  have h3 := congrArg Prod.fst h2
  simp only [List.take_zero, List.nil_append] at h3
  exact h3

theorem p_update_residual3_ntiles (csf : SplattCsf) (f : ℕ) (model : TcModel)
    (mult : Val) : (p_update_residual3 csf f model mult).1.ntiles = csf.ntiles := rfl

theorem p_update_residual3_dim_perm (csf : SplattCsf) (f : ℕ) (model : TcModel)
    (mult : Val) : (p_update_residual3 csf f model mult).1.dim_perm = csf.dim_perm := rfl

theorem p_update_residual3_pt (csf : SplattCsf) (f : ℕ) (model : TcModel)
    (mult : Val) (t : ℕ) (ht : t < csf.ntiles) :
    (p_update_residual3 csf f model mult).1.pt.getD t emptySparsity
      = (updateResidualTile (model.factors (csf.dim_perm.getD 0 0) f)
          (model.factors (csf.dim_perm.getD 1 0) f)
          (model.factors (csf.dim_perm.getD 2 0) f) mult
          (csf.pt.getD t emptySparsity)).1 := by
  unfold p_update_residual3
  dsimp only
  rw [List.map_map]
  exact getD_map_range csf.ntiles _ t ht emptySparsity

/-- Claim C4: within one CCD epoch, immediately after the "subtract new
column f" step (`p_update_residual3` with `mult = -1`, following the
"add current column" step with `mult = 1` and the per-mode updates that
replace only column `f` of each factor), the sum over all tiles and leaves
of `vals[]²` equals `tc_loss_sq(X, model_after_f)`, the squared loss of the
model with column `f` freshly updated — exactly, in this rational
embedding, hence within any relative tolerance. -/
theorem ccd_subtract_step_loss
    (csf : SplattCsf) (X : ℕ → ℕ → Val) (model modelN : TcModel) (f : ℕ)
    (hf : f < model.rank) (hrank : modelN.rank = model.rank)
    (hagree : ∀ mo g i, g ≠ f → modelN.factors mo g i = model.factors mo g i)
    (hcov : ∀ t, t < csf.ntiles →
      (tileEntries (csf.pt.getD t emptySparsity)).map (fun e => e.2.2.2)
        = List.range (csf.pt.getD t emptySparsity).vals.length)
    (hres : ∀ t, t < csf.ntiles → ∀ e ∈ tileEntries (csf.pt.getD t emptySparsity),
      (csf.pt.getD t emptySparsity).vals.getD e.2.2.2 0
        = X t e.2.2.2 - predictAll model csf.dim_perm e.1 e.2.1 e.2.2.1) :
    sumSqVals (p_update_residual3 (p_update_residual3 csf f model 1).1 f modelN (-1)).1
      = tc_loss_sq csf X modelN := by
  unfold sumSqVals tc_loss_sq
  simp only [p_update_residual3_ntiles]
  refine congrArg List.sum (List.map_congr_left ?_)
  intro t htm
  have ht : t < csf.ntiles := List.mem_range.mp htm
  have h1 : (p_update_residual3 csf f model 1).1.pt.getD t emptySparsity
      = (updateResidualTile (model.factors (csf.dim_perm.getD 0 0) f)
          (model.factors (csf.dim_perm.getD 1 0) f)
          (model.factors (csf.dim_perm.getD 2 0) f) 1
          (csf.pt.getD t emptySparsity)).1 :=
    p_update_residual3_pt csf f model 1 t ht
  have h2 : (p_update_residual3 (p_update_residual3 csf f model 1).1 f
        modelN (-1)).1.pt.getD t emptySparsity
      = (updateResidualTile (modelN.factors (csf.dim_perm.getD 0 0) f)
          (modelN.factors (csf.dim_perm.getD 1 0) f)
          (modelN.factors (csf.dim_perm.getD 2 0) f) (-1)
          ((p_update_residual3 csf f model 1).1.pt.getD t emptySparsity)).1 := by
    have hx := p_update_residual3_pt (p_update_residual3 csf f model 1).1 f modelN (-1) t ht
    simpa [p_update_residual3_dim_perm] using hx
  have hvals1 : ((updateResidualTile (model.factors (csf.dim_perm.getD 0 0) f)
        (model.factors (csf.dim_perm.getD 1 0) f)
        (model.factors (csf.dim_perm.getD 2 0) f) 1
        (csf.pt.getD t emptySparsity)).1).vals
      = (tileEntries (csf.pt.getD t emptySparsity)).map (fun e =>
          (csf.pt.getD t emptySparsity).vals.getD e.2.2.2 0
            + 1 * model.factors (csf.dim_perm.getD 0 0) f e.1
                * model.factors (csf.dim_perm.getD 1 0) f e.2.1
                * model.factors (csf.dim_perm.getD 2 0) f e.2.2.1) :=
    updateResidualTile_vals _ _ _ 1 _ (hcov t ht)
  have hlen_entries : (tileEntries (csf.pt.getD t emptySparsity)).length
      = (csf.pt.getD t emptySparsity).vals.length := by
    have hy := congrArg List.length (hcov t ht)
    simpa using hy
  have hcov1 : (tileEntries ((updateResidualTile (model.factors (csf.dim_perm.getD 0 0) f)
        (model.factors (csf.dim_perm.getD 1 0) f)
        (model.factors (csf.dim_perm.getD 2 0) f) 1
        (csf.pt.getD t emptySparsity)).1)).map (fun e => e.2.2.2)
      = List.range ((updateResidualTile (model.factors (csf.dim_perm.getD 0 0) f)
        (model.factors (csf.dim_perm.getD 1 0) f)
        (model.factors (csf.dim_perm.getD 2 0) f) 1
        (csf.pt.getD t emptySparsity)).1).vals.length := by
    rw [tileEntries_updateResidualTile, hvals1, List.length_map, hlen_entries]
    exact hcov t ht
  rw [h2, h1]
  rw [updateResidualTile_vals _ _ _ (-1) _ hcov1]
  rw [tileEntries_updateResidualTile]
  rw [hvals1]
  rw [List.map_map]
  refine congrArg List.sum (List.map_congr_left ?_)
  intro e he
  dsimp only [Function.comp]
  rw [getD_of_map_cover _ _ _ (csf.pt.getD t emptySparsity).vals.length (hcov t ht) e he]
  rw [hres t ht e he,
    predictAll_column_update model modelN f csf.dim_perm hf hrank hagree]
  ring

/-- Witness for `ccd_subtract_step_loss` on the one-nonzero CSF,
residual `2 = 3 - 1` for the all-ones model, new column value 5. -/
theorem ccd_subtract_step_loss_witness :
    sumSqVals (p_update_residual3 (p_update_residual3 csfEx 0 modelEx 1).1 0
        modelExNew (-1)).1
      = tc_loss_sq csfEx (fun _ _ => 3) modelExNew := by
  refine ccd_subtract_step_loss csfEx (fun _ _ => 3) modelEx modelExNew 0
    (by decide) rfl ?_ ?_ ?_
  · intro mo g i hg
    simp [modelExNew, modelEx, hg]
  · intro t ht
    have ht0 : t = 0 := by
      simp only [show csfEx.ntiles = 1 from rfl] at ht
      omega
    subst ht0
    decide
  · intro t ht e he
    have ht0 : t = 0 := by
      simp only [show csfEx.ntiles = 1 from rfl] at ht
      omega
    subst ht0
    have hl : tileEntries (csfEx.pt.getD 0 emptySparsity) = [(0, 0, 0, 0)] := by decide
    rw [hl] at he
    simp only [List.mem_singleton] at he
    subst he
    norm_num [csfEx, tileEx, emptySparsity, predictAll, modelEx, List.range_succ]

theorem p_twovec_outer_prod_length (a b : List Val) :
    (p_twovec_outer_prod a b).length = a.length * b.length := by
  induction a with
  | nil => simp [p_twovec_outer_prod]
  | cons x as ih =>
    simp only [p_twovec_outer_prod, List.flatMap_cons, List.length_append, List.length_map]
    simp only [p_twovec_outer_prod] at ih
    rw [ih]
    simp only [List.length_cons]
    ring

theorem Mat.row_length (A : Mat) (i : ℕ) : (A.row i).length = A.J := by
  simp [Mat.row]

theorem fiberAccum_length (pt : CsfSparsity) (B : Mat) (f : ℕ) :
    (fiberAccum pt B f).length = B.J := by
  have h : ∀ (l : List ℕ) (acc : List Val), acc.length = B.J →
      (List.foldl (fun acc jj =>
        List.zipWith (fun a b => a + b) acc
          ((B.row (fidsAt (pt.fids.getD 2 none) jj)).map
            (fun x => pt.vals.getD jj 0 * x))) acc l).length = B.J := by
    intro l
    induction l with
    | nil => intro acc h; simpa using h
    | cons jj l ih =>
      intro acc hacc
      simp only [List.foldl_cons]
      exact ih _ (by
        rw [List.length_zipWith, List.length_map, Mat.row_length, hacc]
        simp)
  exact h _ (List.replicate B.J 0) (List.length_replicate _ _)

theorem streamContrib_length (rows : List (List Val)) (v : Val) :
    (streamContrib rows v).length = (rows.map List.length).prod := by
  induction rows with
  | nil => rfl
  | cons r rest ih =>
    simp only [streamContrib, List.map_cons, List.prod_cons]
    rw [p_twovec_outer_prod_length, ih]

theorem addAt_frame (t : ℕ → Val) (base : ℕ) (xs : List Val) (j : ℕ)
    (h : ¬(base ≤ j ∧ j - base < xs.length)) : addAt t base xs j = t j :=
  if_neg h

theorem foldl_preserve_fun {α : Type} (l : List α) (step : (ℕ → Val) → α → (ℕ → Val))
    (B : ℕ) (hstep : ∀ t a, a ∈ l → ∀ j, B ≤ j → step t a j = t j) :
    ∀ t j, B ≤ j → l.foldl step t j = t j := by
  induction l with
  | nil => intro t j hj; rfl
  | cons a l ih =>
    intro t j hj
    simp only [List.foldl_cons]
    rw [ih (fun t2 a2 ha2 => hstep t2 a2 (List.mem_cons_of_mem a ha2)) _ j hj]
    exact hstep t a (List.mem_cons_self a l) j hj

theorem p_csf_ttmc_intl3_frame (csf : SplattCsf) (tile_id : ℕ) (mats : ℕ → Mat)
    (tenout : ℕ → Val) (D : ℕ)
    (hb : ∀ s, s < (csf.pt.getD tile_id emptySparsity).nfibs.getD 0 0 →
      ∀ f, ((csf.pt.getD tile_id emptySparsity).fptr.getD 0 []).getD s 0 ≤ f →
        f < ((csf.pt.getD tile_id emptySparsity).fptr.getD 0 []).getD (s + 1) 0 →
        fidsAt ((csf.pt.getD tile_id emptySparsity).fids.getD 1 none) f < D) :
    ∀ j, D * ((mats (csf.dim_perm.getD 0 0)).J * (mats (csf.dim_perm.getD 2 0)).J) ≤ j →
      p_csf_ttmc_intl3 csf tile_id mats tenout j = tenout j := by
  intro j hj
  unfold p_csf_ttmc_intl3
  refine foldl_preserve_fun _ _
    (D * ((mats (csf.dim_perm.getD 0 0)).J * (mats (csf.dim_perm.getD 2 0)).J))
    ?_ tenout j hj
  intro t s hs j2 hj2
  refine foldl_preserve_fun _ _
    (D * ((mats (csf.dim_perm.getD 0 0)).J * (mats (csf.dim_perm.getD 2 0)).J))
    ?_ t j2 hj2
  intro t2 f hf j3 hj3
  apply addAt_frame
  intro hcon
  obtain ⟨hle, hlt⟩ := hcon
  rw [p_twovec_outer_prod_length, Mat.row_length, fiberAccum_length] at hlt
  have hfid : fidsAt ((csf.pt.getD tile_id emptySparsity).fids.getD 1 none) f < D := by
    obtain ⟨i, hi, rfl⟩ := List.mem_range'.mp hf
    exact hb s (List.mem_range.mp hs) _ (by omega) (by omega)
  have hmul : fidsAt ((csf.pt.getD tile_id emptySparsity).fids.getD 1 none) f
        * ((mats (csf.dim_perm.getD 0 0)).J * (mats (csf.dim_perm.getD 2 0)).J)
        + (mats (csf.dim_perm.getD 0 0)).J * (mats (csf.dim_perm.getD 2 0)).J
      ≤ D * ((mats (csf.dim_perm.getD 0 0)).J * (mats (csf.dim_perm.getD 2 0)).J) := by
    have h2 := Nat.mul_le_mul_right
      ((mats (csf.dim_perm.getD 0 0)).J * (mats (csf.dim_perm.getD 2 0)).J) hfid
    rw [Nat.succ_mul] at h2
    exact h2
  omega

theorem p_csf_ttmc_leaf3_frame (csf : SplattCsf) (tile_id : ℕ) (mats : ℕ → Mat)
    (tenout : ℕ → Val) (D : ℕ)
    (hb : ∀ s, s < (csf.pt.getD tile_id emptySparsity).nfibs.getD 0 0 →
      ∀ f, ((csf.pt.getD tile_id emptySparsity).fptr.getD 0 []).getD s 0 ≤ f →
        f < ((csf.pt.getD tile_id emptySparsity).fptr.getD 0 []).getD (s + 1) 0 →
        ∀ jj, ((csf.pt.getD tile_id emptySparsity).fptr.getD 1 []).getD f 0 ≤ jj →
          jj < ((csf.pt.getD tile_id emptySparsity).fptr.getD 1 []).getD (f + 1) 0 →
          fidsAt ((csf.pt.getD tile_id emptySparsity).fids.getD 2 none) jj < D) :
    ∀ j, D * ((mats (csf.dim_perm.getD 0 0)).J * (mats (csf.dim_perm.getD 1 0)).J) ≤ j →
      p_csf_ttmc_leaf3 csf tile_id mats tenout j = tenout j := by
  intro j hj
  unfold p_csf_ttmc_leaf3
  refine foldl_preserve_fun _ _
    (D * ((mats (csf.dim_perm.getD 0 0)).J * (mats (csf.dim_perm.getD 1 0)).J))
    ?_ tenout j hj
  intro t s hs j2 hj2
  refine foldl_preserve_fun _ _
    (D * ((mats (csf.dim_perm.getD 0 0)).J * (mats (csf.dim_perm.getD 1 0)).J))
    ?_ t j2 hj2
  intro t2 f hf j3 hj3
  refine foldl_preserve_fun _ _
    (D * ((mats (csf.dim_perm.getD 0 0)).J * (mats (csf.dim_perm.getD 1 0)).J))
    ?_ t2 j3 hj3
  intro t3 jj hjj j4 hj4
  apply addAt_frame
  intro hcon
  obtain ⟨hle, hlt⟩ := hcon
  rw [List.length_map, p_twovec_outer_prod_length, Mat.row_length, Mat.row_length] at hlt
  have hfid : fidsAt ((csf.pt.getD tile_id emptySparsity).fids.getD 2 none) jj < D := by
    obtain ⟨i, hi, hfeq⟩ := List.mem_range'.mp hf
    obtain ⟨i2, hi2, hjjeq⟩ := List.mem_range'.mp hjj
    exact hb s (List.mem_range.mp hs) f (by omega) (by omega) jj (by omega) (by omega)
  have hmul : fidsAt ((csf.pt.getD tile_id emptySparsity).fids.getD 2 none) jj
        * ((mats (csf.dim_perm.getD 0 0)).J * (mats (csf.dim_perm.getD 1 0)).J)
        + (mats (csf.dim_perm.getD 0 0)).J * (mats (csf.dim_perm.getD 1 0)).J
      ≤ D * ((mats (csf.dim_perm.getD 0 0)).J * (mats (csf.dim_perm.getD 1 0)).J) := by
    have h2 := Nat.mul_le_mul_right
      ((mats (csf.dim_perm.getD 0 0)).J * (mats (csf.dim_perm.getD 1 0)).J) hfid
    rw [Nat.succ_mul] at h2
    exact h2
  omega

theorem ttmc_stream_frame (tt : Sptensor) (mats : ℕ → Mat) (tenout : ℕ → Val) (mode : ℕ)
    (hind : ∀ n, n < tt.nnz → (tt.ind.getD mode []).getD n 0 < tt.dims.getD mode 0) :
    ∀ j, tt.dims.getD mode 0 *
        (((List.range tt.nmodes).filter (fun m => m ≠ mode)).map (fun m => (mats m).J)).prod
        ≤ j →
      ttmc_stream tt mats tenout mode j = tenout j := by
  intro j hj
  unfold ttmc_stream
  have hfold : ∀ (t : ℕ → Val) (j2 : ℕ),
      tt.dims.getD mode 0 *
        (((List.range tt.nmodes).filter (fun m => m ≠ mode)).map (fun m => (mats m).J)).prod
        ≤ j2 →
      List.foldl (fun t n =>
        addAt t ((tt.ind.getD mode []).getD n 0 *
          (((List.range tt.nmodes).filter (fun m => m ≠ mode)).map (fun m => (mats m).J)).prod)
          (streamContrib
            (((List.range tt.nmodes).filter (fun m => m ≠ mode)).map
              (fun m => (mats m).row ((tt.ind.getD m []).getD n 0)))
            (tt.vals.getD n 0))) t (List.range tt.nnz) j2 = t j2 := by
    intro t j2 hj2
    refine foldl_preserve_fun _ _
      (tt.dims.getD mode 0 *
        (((List.range tt.nmodes).filter (fun m => m ≠ mode)).map (fun m => (mats m).J)).prod)
      ?_ t j2 hj2
    intro t2 n hn j3 hj3
    apply addAt_frame
    intro hcon
    obtain ⟨hle, hlt⟩ := hcon
    rw [streamContrib_length, List.map_map] at hlt
    have hT : List.map (List.length ∘ fun m => (mats m).row ((tt.ind.getD m []).getD n 0))
          ((List.range tt.nmodes).filter (fun m => m ≠ mode))
        = List.map (fun m => (mats m).J)
          ((List.range tt.nmodes).filter (fun m => m ≠ mode)) :=
      List.map_congr_left (fun m _ => Mat.row_length (mats m) ((tt.ind.getD m []).getD n 0))
    rw [hT] at hlt
    have hd : (tt.ind.getD mode []).getD n 0 < tt.dims.getD mode 0 :=
      hind n (List.mem_range.mp hn)
    have hmul : (tt.ind.getD mode []).getD n 0 *
          (((List.range tt.nmodes).filter (fun m => m ≠ mode)).map (fun m => (mats m).J)).prod
          + (((List.range tt.nmodes).filter (fun m => m ≠ mode)).map (fun m => (mats m).J)).prod
        ≤ tt.dims.getD mode 0 *
          (((List.range tt.nmodes).filter (fun m => m ≠ mode)).map (fun m => (mats m).J)).prod := by
      have h2 := Nat.mul_le_mul_right
        ((((List.range tt.nmodes).filter (fun m => m ≠ mode)).map (fun m => (mats m).J)).prod) hd
      rw [Nat.succ_mul] at h2
      exact h2
    omega
  rw [hfold _ j hj]
  unfold p_clear_tenout
  exact if_neg (by omega)

theorem p_root_decide_tenout (t : SplattCsf) (mats : ℕ → Mat) (te : ℕ → Val) :
    (p_root_decide t mats te).tenout = te := by
  unfold p_root_decide
  cases htt : t.which_tile <;> rfl

theorem p_intl_decide_tenout_notile (t : SplattCsf) (mats : ℕ → Mat) (te : ℕ → Val)
    (h : t.which_tile = TileType.notile) :
    (p_intl_decide t mats te).tenout = p_csf_ttmc_intl3 t 0 mats te := by
  unfold p_intl_decide
  rw [h]

theorem p_intl_decide_tenout_tiled (t : SplattCsf) (mats : ℕ → Mat) (te : ℕ → Val)
    (h : t.which_tile ≠ TileType.notile) :
    (p_intl_decide t mats te).tenout = te := by
  unfold p_intl_decide
  cases htt : t.which_tile
  · exact absurd htt h
  · rfl
  · rfl

theorem p_leaf_decide_tenout_notile (t : SplattCsf) (mats : ℕ → Mat) (te : ℕ → Val)
    (h : t.which_tile = TileType.notile) :
    (p_leaf_decide t mats te).tenout = p_csf_ttmc_leaf3 t 0 mats te := by
  unfold p_leaf_decide
  rw [h]

theorem p_leaf_decide_tenout_tiled (t : SplattCsf) (mats : ℕ → Mat) (te : ℕ → Val)
    (h : t.which_tile ≠ TileType.notile) :
    (p_leaf_decide t mats te).tenout = te := by
  unfold p_leaf_decide
  cases htt : t.which_tile
  · exact absurd htt h
  · rfl
  · rfl

theorem depth_one_perm (perm : List ℕ) (mode : ℕ)
    (h : csf_mode_depth mode perm 3 = 1) :
    perm.getD 1 0 = mode ∧ perm.getD 0 0 ≠ mode := by
  unfold csf_mode_depth at h
  rw [show List.range 3 = [0, 1, 2] from rfl] at h
  simp only [List.getD_eq_getElem?_getD]
  by_cases h0 : perm[0]?.getD 0 = mode
  · simp [List.filter_cons, List.getD_eq_getElem?_getD, h0] at h
  · by_cases h1 : perm[1]?.getD 0 = mode
    · exact ⟨h1, h0⟩
    · exfalso
      by_cases h2 : perm[2]?.getD 0 = mode
      · simp [List.filter_cons, List.getD_eq_getElem?_getD, h0, h1, h2] at h
      · simp [List.filter_cons, List.getD_eq_getElem?_getD, h0, h1, h2] at h

theorem depth_two_perm (perm : List ℕ) (mode : ℕ)
    (h : csf_mode_depth mode perm 3 = 2) :
    perm.getD 2 0 = mode ∧ perm.getD 0 0 ≠ mode ∧ perm.getD 1 0 ≠ mode := by
  unfold csf_mode_depth at h
  rw [show List.range 3 = [0, 1, 2] from rfl] at h
  simp only [List.getD_eq_getElem?_getD]
  by_cases h0 : perm[0]?.getD 0 = mode
  · simp [List.filter_cons, List.getD_eq_getElem?_getD, h0] at h
  · by_cases h1 : perm[1]?.getD 0 = mode
    · simp [List.filter_cons, List.getD_eq_getElem?_getD, h0, h1] at h
    · by_cases h2 : perm[2]?.getD 0 = mode
      · exact ⟨h2, h0, h1⟩
      · exfalso
        simp [List.filter_cons, List.getD_eq_getElem?_getD, h0, h1, h2] at h

theorem perm_prod_intl (mats : ℕ → Mat) (p0 p1 p2 mode : ℕ)
    (hperm : List.Perm [p0, p1, p2] [0, 1, 2]) (h1 : p1 = mode) :
    (((List.range 3).filter (fun m => m ≠ mode)).map (fun m => (mats m).J)).prod
      = (mats p0).J * (mats p2).J := by
  have hnd : ([p0, p1, p2] : List ℕ).Nodup := hperm.nodup_iff.mpr (by decide)
  have hp0 : p0 ≠ mode := by
    intro hc
    rw [← h1] at hc
    simp [List.nodup_cons] at hnd
    exact hnd.1.1 hc
  have hp2 : p2 ≠ mode := by
    intro hc
    rw [← h1] at hc
    simp [List.nodup_cons] at hnd
    exact hnd.2 hc.symm
  have hfilt : ([p0, p1, p2] : List ℕ).filter (fun m => m ≠ mode) = [p0, p2] := by
    simp [List.filter_cons, hp0, hp2, h1]
  have hfp := (hperm.filter (fun m => decide (m ≠ mode))).symm
  have hprodeq := ((hfp.map (fun m => (mats m).J)).prod_eq).symm
  rw [show List.range 3 = [0, 1, 2] from rfl]
  rw [← hprodeq, hfilt]
  simp

theorem perm_prod_leaf (mats : ℕ → Mat) (p0 p1 p2 mode : ℕ)
    (hperm : List.Perm [p0, p1, p2] [0, 1, 2]) (h2 : p2 = mode) :
    (((List.range 3).filter (fun m => m ≠ mode)).map (fun m => (mats m).J)).prod
      = (mats p0).J * (mats p1).J := by
  have hnd : ([p0, p1, p2] : List ℕ).Nodup := hperm.nodup_iff.mpr (by decide)
  have hp0 : p0 ≠ mode := by
    intro hc
    rw [← h2] at hc
    simp [List.nodup_cons] at hnd
    exact hnd.1.2 hc
  have hp1 : p1 ≠ mode := by
    intro hc
    rw [← h2] at hc
    simp [List.nodup_cons] at hnd
    exact hnd.2 hc
  have hfilt : ([p0, p1, p2] : List ℕ).filter (fun m => m ≠ mode) = [p0, p1] := by
    simp [List.filter_cons, hp0, hp1, h2]
  have hfp := (hperm.filter (fun m => decide (m ≠ mode))).symm
  have hprodeq := ((hfp.map (fun m => (mats m).J)).prod_eq).symm
  rw [show List.range 3 = [0, 1, 2] from rfl]
  rw [← hprodeq, hfilt]
  simp

/-- Claim C10: a `ttmc_csf` or `ttmc_stream` call for output mode `m`
leaves every entry of `tenout` at or beyond the extent
`dims[m] × ∏_{p≠m} ncolumns[p]` unchanged (only that prefix is zeroed and
accumulated into), given in-range fiber/leaf output ids and a valid mode
permutation — so slack from `tenout_dim`'s maximum over modes is never
touched. -/
theorem ttmc_writes_within_output_extent
    (tensors : List SplattCsf) (mats : ℕ → Mat) (tenout : ℕ → Val)
    (mode : ℕ) (alloc : CsfAlloc) (tt : Sptensor) (tenout2 : ℕ → Val)
    (hnm : (tensors.getD 0 emptyCsf).nmodes = 3)
    (hperm : List.Perm [(tensors.getD 0 emptyCsf).dim_perm.getD 0 0,
        (tensors.getD 0 emptyCsf).dim_perm.getD 1 0,
        (tensors.getD 0 emptyCsf).dim_perm.getD 2 0] [0, 1, 2])
    (hintl : ∀ s, s < ((tensors.getD 0 emptyCsf).pt.getD 0 emptySparsity).nfibs.getD 0 0 →
      ∀ f, (((tensors.getD 0 emptyCsf).pt.getD 0 emptySparsity).fptr.getD 0 []).getD s 0 ≤ f →
        f < (((tensors.getD 0 emptyCsf).pt.getD 0 emptySparsity).fptr.getD 0 []).getD (s + 1) 0 →
        fidsAt (((tensors.getD 0 emptyCsf).pt.getD 0 emptySparsity).fids.getD 1 none) f
          < (tensors.getD 0 emptyCsf).dims.getD mode 0)
    (hleaf : ∀ s, s < ((tensors.getD 0 emptyCsf).pt.getD 0 emptySparsity).nfibs.getD 0 0 →
      ∀ f, (((tensors.getD 0 emptyCsf).pt.getD 0 emptySparsity).fptr.getD 0 []).getD s 0 ≤ f →
        f < (((tensors.getD 0 emptyCsf).pt.getD 0 emptySparsity).fptr.getD 0 []).getD (s + 1) 0 →
        ∀ jj, (((tensors.getD 0 emptyCsf).pt.getD 0 emptySparsity).fptr.getD 1 []).getD f 0 ≤ jj →
          jj < (((tensors.getD 0 emptyCsf).pt.getD 0 emptySparsity).fptr.getD 1 []).getD (f + 1) 0 →
          fidsAt (((tensors.getD 0 emptyCsf).pt.getD 0 emptySparsity).fids.getD 2 none) jj
            < (tensors.getD 0 emptyCsf).dims.getD mode 0)
    (hind : ∀ n, n < tt.nnz → (tt.ind.getD mode []).getD n 0 < tt.dims.getD mode 0) :
    (∀ j, (tensors.getD 0 emptyCsf).dims.getD mode 0 *
        (((List.range (tensors.getD 0 emptyCsf).nmodes).filter (fun m => m ≠ mode)).map
          (fun m => (mats m).J)).prod ≤ j →
      (ttmc_csf tensors mats tenout mode alloc).tenout j = tenout j)
    ∧ (∀ j, tt.dims.getD mode 0 *
        (((List.range tt.nmodes).filter (fun m => m ≠ mode)).map
          (fun m => (mats m).J)).prod ≤ j →
      ttmc_stream tt mats tenout2 mode j = tenout2 j) := by
  refine ⟨?_, ttmc_stream_frame tt mats tenout2 mode hind⟩
  intro j hj
  rw [hnm] at hj
  have hclear2 : ∀ te : ℕ → Val,
      p_clear_tenout te mats (tensors.getD 0 emptyCsf).nmodes mode
        (tensors.getD 0 emptyCsf).dims j = te j := by
    intro te
    unfold p_clear_tenout
    rw [hnm]
    exact if_neg (by omega)
  unfold ttmc_csf
  cases alloc <;> dsimp only
  · -- ONEMODE
    split_ifs with h0 h1
    · rw [p_root_decide_tenout]
      exact hclear2 tenout
    · rw [hnm] at h1
      rw [show (3 : ℕ) - 1 = 2 from rfl] at h1
      obtain ⟨hp2, hp0ne, hp1ne⟩ := depth_two_perm _ _ h1
      by_cases htile : (tensors.getD 0 emptyCsf).which_tile = TileType.notile
      · rw [p_leaf_decide_tenout_notile _ _ _ htile]
        refine (p_csf_ttmc_leaf3_frame (tensors.getD 0 emptyCsf) 0 mats _
          ((tensors.getD 0 emptyCsf).dims.getD mode 0) hleaf j ?_).trans (hclear2 tenout)
        rw [perm_prod_leaf mats _ _ _ mode hperm hp2] at hj
        exact hj
      · rw [p_leaf_decide_tenout_tiled _ _ _ htile]
        exact hclear2 tenout
    · have hk : csf_mode_depth mode (tensors.getD 0 emptyCsf).dim_perm 3 ≤ 2 := by
        unfold csf_mode_depth
        exact headD_filter_range_le 3 _ (by norm_num)
      rw [hnm] at h0 h1
      rw [show (3 : ℕ) - 1 = 2 from rfl] at h1
      have hd1 : csf_mode_depth mode (tensors.getD 0 emptyCsf).dim_perm 3 = 1 := by omega
      obtain ⟨hp1, hp0ne⟩ := depth_one_perm _ _ hd1
      by_cases htile : (tensors.getD 0 emptyCsf).which_tile = TileType.notile
      · rw [p_intl_decide_tenout_notile _ _ _ htile]
        refine (p_csf_ttmc_intl3_frame (tensors.getD 0 emptyCsf) 0 mats _
          ((tensors.getD 0 emptyCsf).dims.getD mode 0) hintl j ?_).trans (hclear2 tenout)
        rw [perm_prod_intl mats _ _ _ mode hperm hp1] at hj
        exact hj
      · rw [p_intl_decide_tenout_tiled _ _ _ htile]
        exact hclear2 tenout
  · -- TWOMODE
    split_ifs with hme h0
    · rw [p_root_decide_tenout]
      exact hclear2 tenout
    · rw [p_root_decide_tenout]
      exact hclear2 tenout
    · have hk : csf_mode_depth mode (tensors.getD 0 emptyCsf).dim_perm 3 ≤ 2 := by
        unfold csf_mode_depth
        exact headD_filter_range_le 3 _ (by norm_num)
      rw [hnm] at h0 hme
      rw [show (3 : ℕ) - 1 = 2 from rfl] at hme
      have hd12 : csf_mode_depth mode (tensors.getD 0 emptyCsf).dim_perm 3 = 1
          ∨ csf_mode_depth mode (tensors.getD 0 emptyCsf).dim_perm 3 = 2 := by omega
      rcases hd12 with hd1 | hd2
      · obtain ⟨hp1, hp0ne⟩ := depth_one_perm _ _ hd1
        by_cases htile : (tensors.getD 0 emptyCsf).which_tile = TileType.notile
        · rw [p_intl_decide_tenout_notile _ _ _ htile]
          refine (p_csf_ttmc_intl3_frame (tensors.getD 0 emptyCsf) 0 mats _
            ((tensors.getD 0 emptyCsf).dims.getD mode 0) hintl j ?_).trans (hclear2 tenout)
          rw [perm_prod_intl mats _ _ _ mode hperm hp1] at hj
          exact hj
        · rw [p_intl_decide_tenout_tiled _ _ _ htile]
          exact hclear2 tenout
      · exfalso
        obtain ⟨hp2, -, -⟩ := depth_two_perm _ _ hd2
        exact hme hp2.symm
  · -- ALLMODE
    rw [p_root_decide_tenout]
    exact hclear2 tenout

/-- Witness for `ttmc_writes_within_output_extent`: on the one-nonzero
tensor with extent 1, entry 5 of both output buffers keeps its initial
value. -/
theorem ttmc_writes_within_output_extent_witness :
    (ttmc_csf [csfEx] matsOnes (fun _ => 7) 1 CsfAlloc.onemode).tenout 5 = (fun _ => (7 : Val)) 5
    ∧ ttmc_stream ttEx matsOnes (fun _ => 8) 1 5 = (fun _ => (8 : Val)) 5 := by
  have h := ttmc_writes_within_output_extent [csfEx] matsOnes (fun _ => 7) 1
    CsfAlloc.onemode ttEx (fun _ => 8) rfl (by decide)
    (by
      intro s hs f hf1 hf2
      have hs0 : s = 0 := by
        simp only [show (([csfEx].getD 0 emptyCsf).pt.getD 0 emptySparsity).nfibs.getD 0 0
          = 1 from rfl] at hs
        omega
      subst hs0
      have hf0 : f = 0 := by
        simp only [show ((([csfEx].getD 0 emptyCsf).pt.getD 0 emptySparsity).fptr.getD 0
          []).getD (0 + 1) 0 = 1 from rfl] at hf2
        omega
      subst hf0
      decide)
    (by
      intro s hs f hf1 hf2 jj hj1 hj2
      have hs0 : s = 0 := by
        simp only [show (([csfEx].getD 0 emptyCsf).pt.getD 0 emptySparsity).nfibs.getD 0 0
          = 1 from rfl] at hs
        omega
      subst hs0
      have hf0 : f = 0 := by
        simp only [show ((([csfEx].getD 0 emptyCsf).pt.getD 0 emptySparsity).fptr.getD 0
          []).getD (0 + 1) 0 = 1 from rfl] at hf2
        omega
      subst hf0
      have hj0 : jj = 0 := by
        simp only [show ((([csfEx].getD 0 emptyCsf).pt.getD 0 emptySparsity).fptr.getD 1
          []).getD (0 + 1) 0 = 1 from rfl] at hj2
        omega
      subst hj0
      decide)
    (by
      intro n hn
      have hn0 : n = 0 := by
        simp only [show ttEx.nnz = 1 from rfl] at hn
        omega
      subst hn0
      decide)
  exact ⟨h.1 5 (by decide), h.2 5 (by decide)⟩

end Splatt
